import Mathlib

/-!
Verification development for the LinkedIn extraction / orchestration engine
(`src/scripts/server-setup.sh` embedded extension code and
`src/chrome-extension-myvoice/src/popup.js`).

The JavaScript is shallowly embedded: strings are Lean `String`s, JS numbers
that carry engagement counts are `ℚ` (all arithmetic in scope is exact on the
integers and small decimal weights involved), `null`-able values are `Option`s,
and millisecond timestamps are `ℤ`.  Two pieces of browser functionality that
the code calls but does not define are kept as explicit oracle parameters in
`JsEnv`: the `new URL(...)` constructor (used only to strip query/fragment) and
`Date` string parsing (`new Date(raw).getTime()`, `none` modelling `NaN`).
Regular expressions used by the source are small enough that their exact
first-match semantics (greedy classes, ordered alternation, ASCII `\b`, `\d`,
JS `\s`) are reproduced directly by recursive scanners.
-/

/-!
JavaScript numbers in scope are exact (integer counts and short decimal
literals), so they are modelled as `ℚ`.  The generic `ℚ` field operations do
not reduce inside the Lean kernel, so the embedding constructs its rationals
with `mkRat`-based helpers; `intQ_eq`, `qadd_eq` and `qmul_eq` below prove
they agree with the ordinary `ℚ` operations, and claim-level statements are
phrased with the ordinary operations.
-/

namespace MyVoice

namespace Js

/-- Character class of the JavaScript regex `\s` (also used by `String.trim`):
ASCII whitespace, NBSP, and the Unicode space separators. -/
def isJsWhitespace (c : Char) : Bool :=
  let n := c.toNat
  n == 0x20 || n == 0x09 || n == 0x0a || n == 0x0d || n == 0x0b || n == 0x0c ||
  n == 0xa0 || n == 0x1680 || (decide (0x2000 ≤ n) && decide (n ≤ 0x200a)) ||
  n == 0x2028 || n == 0x2029 || n == 0x202f || n == 0x205f || n == 0x3000 ||
  n == 0xfeff

/-- One pass of `String.replace(/\s+/g, " ")`: every maximal whitespace run
becomes a single ASCII space.  The boolean records whether the previous
character belonged to a whitespace run. -/
def collapseWsAux : Bool → List Char → List Char
  | _, [] => []
  | prevWs, c :: rest =>
    if isJsWhitespace c then
      if prevWs then collapseWsAux true rest
      else ' ' :: collapseWsAux true rest
    else c :: collapseWsAux false rest

/-- Embedding of `cleanText` (server-setup.sh lines 27-29):
`String(value || "").replace(/\s+/g, " ").trim()`.  After the collapse the
only whitespace left is the ASCII space, so `trim` only strips spaces. -/
def cleanTextList (l : List Char) : List Char :=
  let collapsed := collapseWsAux false l
  ((collapsed.dropWhile (· == ' ')).reverse.dropWhile (· == ' ')).reverse

/-- String-level `cleanText`. -/
def cleanText (s : String) : String := ⟨cleanTextList s.data⟩

/-- JavaScript `toLowerCase()` restricted to the repertoire this code ever
compares case-insensitively: ASCII Latin and the Cyrillic block А-Я / Ё. -/
def jsCharToLower (c : Char) : Char :=
  let n := c.toNat
  if 0x41 ≤ n ∧ n ≤ 0x5a then Char.ofNat (n + 0x20)
  else if 0x410 ≤ n ∧ n ≤ 0x42f then Char.ofNat (n + 0x20)
  else if n = 0x401 then Char.ofNat 0x451
  else c

/-- String-level lower-casing. -/
def jsToLower (s : String) : String := ⟨s.data.map jsCharToLower⟩

/-- List-level substring test (`haystack.includes(needle)` once both sides are
already lower-cased by the caller). -/
def containsSeq (needle : List Char) : List Char → Bool
  | [] => needle.isEmpty
  | c :: rest => needle.isPrefixOf (c :: rest) || containsSeq needle rest

/-- JavaScript `haystack.includes(needle)`. -/
def strIncludes (hay needle : String) : Bool := containsSeq needle.data hay.data

/-- JavaScript `s.startsWith(p)`. -/
def strStartsWith (s p : String) : Bool := p.data.isPrefixOf s.data

/-- Numeric value of a decimal digit character. -/
def digitVal (c : Char) : Nat := c.toNat - 48

/-- Value of a string of decimal digits. -/
def digitsToNat (l : List Char) : Nat := l.foldl (fun a c => a * 10 + digitVal c) 0

/-- The rational `n / 1`. -/
def intQ (n : ℤ) : ℚ := mkRat n 1

/-- Kernel-computable rational addition. -/
def qadd (a b : ℚ) : ℚ := mkRat (a.num * b.den + b.num * a.den) (a.den * b.den)

/-- Kernel-computable rational multiplication. -/
def qmul (a b : ℚ) : ℚ := mkRat (a.num * b.num) (a.den * b.den)

/-- JavaScript `Math.round`: round half toward positive infinity, i.e.
`⌊q + 1/2⌋`, computed on the exact rational as a flooring division. -/
def jsRound (q : ℚ) : ℤ := Int.fdiv (2 * q.num + q.den) (2 * q.den)

/-- JavaScript falsy-chain `a || b` on a nullable string: `null` and `""` fall
through to the alternative. -/
def orFalsyStr (a : Option String) (b : String) : String :=
  match a with
  | some s => if s = "" then b else s
  | none => b

/-- JavaScript `a || b` on two plain strings (empty is falsy). -/
def orStr (a b : String) : String := if a = "" then b else a

end Js

namespace Normalizer

open Js

/-- Character class `[\d\s.,]` of the numeric-token regex. -/
def numBodyChar (c : Char) : Bool := c.isDigit || isJsWhitespace c || c == '.' || c == ','

/-- First match of `/(\d[\d\s.,]*)(?:\s*([kкmм]))?/i` (server-setup.sh line 34):
the match starts at the first digit, the first capture is the maximal run of
`[\d\s.,]` from there (the class is greedy, and since the suffix letters are
not in the class, backtracking can never hand characters from the run to the
suffix group), and the rest of the text follows.  Returns `(body, rest)`. -/
def findFirstDigitSplit : List Char → Option (List Char × List Char)
  | [] => none
  | c :: rest =>
    if c.isDigit then some (c :: rest.takeWhile numBodyChar, rest.dropWhile numBodyChar)
    else findFirstDigitSplit rest

/-- Index of the last occurrence of `c` (JS `lastIndexOf`, `none` for `-1`). -/
def lastIdxOf (c : Char) (l : List Char) : Option Nat :=
  ((l.enum.filter (fun p => p.2 == c)).getLast?).map (·.1)

/-- Replace the first occurrence of `a` by `b` (JS `replace(",", ".")` with a
plain-string pattern replaces only the first occurrence). -/
def replaceFirstChar (a b : Char) : List Char → List Char
  | [] => []
  | c :: rest => if c == a then b :: rest else c :: replaceFirstChar a b rest

/-- JavaScript `Number(body)` on the separator-normalised bodies produced by
`parseNumberToken`: such a body consists of digits, commas and dots; the value
is finite exactly when no comma remains and at most one dot does, with at
least one digit. -/
def parseDecimalList (l : List Char) : Option ℚ :=
  if l.any (fun c => !(c.isDigit || c == '.')) then none
  else if 1 < l.count '.' then none
  else
    let ip := l.takeWhile (fun c => c != '.')
    let fp := (l.dropWhile (fun c => c != '.')).drop 1
    if ip.isEmpty && fp.isEmpty then none
    else some (qadd (intQ (digitsToNat ip)) (mkRat (digitsToNat fp) (10 ^ fp.length)))

/-- Embedding of `parseNumberToken` (server-setup.sh lines 31-76). -/
def parseNumberToken (raw : String) : Option ℤ :=
  let text := cleanText raw
  match findFirstDigitSplit text.data with
  | none => none
  | some (body0, rest) =>
    let body1 := body0.filter (fun c => !isJsWhitespace c)
    if body1.isEmpty then none
    else
      let commaCount := body1.count ','
      let dotCount := body1.count '.'
      let body2 :=
        if 0 < commaCount ∧ 0 < dotCount then
          match lastIdxOf ',' body1, lastIdxOf '.' body1 with
          | some lc, some ld =>
            if ld < lc then replaceFirstChar ',' '.' (body1.filter (fun c => c != '.'))
            else body1.filter (fun c => c != ',')
          | _, _ => body1
        else if 0 < commaCount then
          if 1 < commaCount then body1.filter (fun c => c != ',')
          else
            let idx := (body1.findIdx? (fun c => c == ',')).getD 0
            if body1.length - idx - 1 = 3 then body1.filter (fun c => c != ',')
            else replaceFirstChar ',' '.' body1
        else if 1 < dotCount then
          match lastIdxOf '.' body1 with
          | some last =>
            if body1.length - last - 1 = 3 then body1.filter (fun c => c != '.')
            else ((body1.take last).filter (fun c => c != '.')) ++ '.' :: body1.drop (last + 1)
          | none => body1
        else body1
      match parseDecimalList body2 with
      | none => none
      | some n =>
        match rest with
        | s :: _ =>
          let sl := jsCharToLower s
          if sl == 'k' || sl == 'к' then some (jsRound (qmul n (intQ 1000)))
          else if sl == 'm' || sl == 'м' then some (jsRound (qmul n (intQ 1000000)))
          else some (jsRound n)
        | [] => some (jsRound n)

/-- Character class of the JavaScript regex `\w` (ASCII letters, digits and
underscore); `\b` holds at a position exactly when one side is in `\w` and the
other is not (string edges count as non-word). -/
def isWordChar (c : Char) : Bool := c.isAlphanum || c == '_'

/-- The unit alternation of the relative-time regex (server-setup.sh line 239)
in its exact source order, paired with the entry the `offsets` table
(lines 245-297) holds for that unit. -/
def unitAlternatives : List (String × Int) :=
  [("m", 60000), ("min", 60000), ("mins", 60000), ("minute", 60000), ("minutes", 60000),
   ("h", 3600000), ("hr", 3600000), ("hrs", 3600000), ("hour", 3600000), ("hours", 3600000),
   ("d", 86400000), ("day", 86400000), ("days", 86400000),
   ("w", 604800000), ("wk", 604800000), ("wks", 604800000), ("week", 604800000),
   ("weeks", 604800000),
   ("mo", 2592000000), ("mos", 2592000000), ("month", 2592000000), ("months", 2592000000),
   ("y", 31536000000), ("yr", 31536000000), ("yrs", 31536000000), ("year", 31536000000),
   ("years", 31536000000),
   ("мин", 60000), ("минута", 60000), ("минут", 60000),
   ("ч", 3600000), ("час", 3600000), ("часа", 3600000), ("часов", 3600000),
   ("дн", 86400000), ("д", 86400000), ("день", 86400000), ("дня", 86400000),
   ("дней", 86400000),
   ("нед", 604800000), ("неделя", 604800000), ("недели", 604800000), ("недель", 604800000),
   ("мес", 2592000000), ("месяц", 2592000000), ("месяца", 2592000000),
   ("месяцев", 2592000000),
   ("г", 31536000000), ("год", 31536000000), ("года", 31536000000), ("лет", 31536000000)]

/-- JavaScript `\b` right after an alternative `alt` matched at the head of
`l`: a boundary holds there exactly when the last character of `alt` and the
following character of `l` disagree on `\w` membership (end of input counts as
non-word). -/
def boundaryAfter (alt : List Char) (l : List Char) : Bool :=
  match alt.getLast? with
  | none => false
  | some a =>
    match (l.drop alt.length).head? with
    | some b => isWordChar a != isWordChar b
    | none => isWordChar a

/-- Ordered alternation with a trailing `\b`: the first alternative (in regex
order) that is a literal head of `l` and is followed by a word boundary wins;
returns that unit together with its `offsets` step. -/
def matchUnitAt (l : List Char) : Option (String × Int) :=
  unitAlternatives.find? (fun u => u.1.data.isPrefixOf l && boundaryAfter u.1.data l)

/-- First match of `/(\d+)\s*(<units>)\b/i` over an already lower-cased text:
start positions are tried left to right; at a digit the maximal digit run is
taken (no backtracking can help, since the alternatives do not start with a
digit or whitespace), optional whitespace is skipped, and the unit alternation
is tried; on failure the scan restarts one character later. -/
def relScan : List Char → Option (Nat × String × Int)
  | [] => none
  | c :: rest =>
    if c.isDigit then
      let digits := c :: rest.takeWhile Char.isDigit
      let afterWs := (rest.dropWhile Char.isDigit).dropWhile isJsWhitespace
      match matchUnitAt afterWs with
      | some u => some (digitsToNat digits, u)
      | none => relScan rest
    else relScan rest

/-- Embedding of `parsePublishedIso` (server-setup.sh lines 232-301).
`dateParse` is the oracle for the direct `new Date(value).getTime()` attempt
(`none` = `NaN`), `now` is `Date.now()`, and the result is the millisecond
instant of the returned ISO string (`toISOString` is injective on instants, so
nothing is lost by staying in milliseconds). -/
def parsePublishedIso (dateParse : String → Option Int) (now : Int) (raw : String) :
    Option Int :=
  let value := cleanText raw
  if value = "" then none
  else
    match dateParse value with
    | some t => some t
    | none =>
      match relScan (jsToLower value).data with
      | none => none
      | some (n, _, step) =>
        if n = 0 then none
        else some (now - (n : Int) * step)

end Normalizer

namespace Scrape

open Js

/-- Browser facilities used but not defined by the source, kept as explicit
oracles: `urlParse raw` is `new URL(raw)` with `search`/`hash` cleared and
re-serialised (`none` when the constructor throws), and `dateParse raw` is
`new Date(raw).getTime()` (`none` when the result is `NaN`). -/
structure JsEnv where
  urlParse : String → Option String
  dateParse : String → Option Int

/-- The post-record shape consumed by the identity/scoring engine
(server-setup.sh lines 4190-4285): nullable strings and nullable integer
engagement counts (every count in scope is produced by `parseNumberToken`,
hence integral). -/
structure Post where
  post_url : Option String := none
  title : Option String := none
  content : Option String := none
  text : Option String := none
  posted_at_iso : Option String := none
  posted_at : Option String := none
  reactions_count : Option ℤ := none
  likes_count : Option ℤ := none
  comments_count : Option ℤ := none
  reposts_count : Option ℤ := none
  views_count : Option ℤ := none
deriving DecidableEq

/-- Embedding of `toNumber` (lines 4184-4188) on a nullable integer: `null`
falls back, and a finite number is returned as-is. -/
def toNumber (v : Option ℤ) (fallback : ℤ) : ℤ := v.getD fallback

/-- Embedding of `scorePost` (lines 4197-4203):
`reactions + comments * 3 + reposts * 2 + views * 0.02`, with `reactions`
falling back to `likes_count` when `reactions_count` is `null`, and absent
counts counted as `0`.  (`0.02 = 2/100` exactly; JS evaluates the formula in
binary floating point, the embedding in exact rationals.) -/
def scorePost (p : Post) : ℚ :=
  let reactions := toNumber (match p.reactions_count with
    | some r => some r
    | none => p.likes_count) 0
  let comments := toNumber p.comments_count 0
  let reposts := toNumber p.reposts_count 0
  let views := toNumber p.views_count 0
  qadd (qadd (qadd (intQ reactions) (qmul (intQ comments) (intQ 3)))
      (qmul (intQ reposts) (intQ 2)))
    (qmul (intQ views) (mkRat 2 100))

/-- Embedding of `postDateMs` (lines 4190-4195): clean
`posted_at_iso || posted_at` and parse it; `none` models `NaN`. -/
def postDateMs (env : JsEnv) (p : Post) : Option Int :=
  let raw := cleanText (orFalsyStr p.posted_at_iso (orFalsyStr p.posted_at ""))
  if raw = "" then none else env.dateParse raw

/-- JavaScript `>` on two possibly-`NaN` numbers: any comparison against `NaN`
is false. -/
def jsGtOpt : Option Int → Option Int → Bool
  | some a, some b => decide (b < a)
  | _, _ => false

/-- Scan for one URN/URL pattern (already lower-cased, mirroring the `/i`
flag): at each occurrence of the literal the following maximal digit run is
captured if it has at least 8 digits (`\d{8,}` is greedy, and a shorter run
fails this occurrence and resumes the scan). -/
def findIdAfter (pat : List Char) : List Char → Option (List Char)
  | [] => none
  | c :: rest =>
    if pat.isPrefixOf (c :: rest) then
      let ds := ((c :: rest).drop pat.length).takeWhile Char.isDigit
      if 8 ≤ ds.length then some ds else findIdAfter pat rest
    else findIdAfter pat rest

/-- The six URN/URL shapes recognised by `extractActivityId`
(lines 4205-4220), in source order, in lower-case form (the regexes carry the
`/i` flag and the scan happens over the lower-cased text). -/
def activityPatterns : List String :=
  ["urn:li:activity:", "activity-", "ugcpost-", "urn:li:ugcpost:", "urn:li:share:", "share-"]

/-- Embedding of `extractActivityId` (lines 4205-4220): the first pattern (in
order) that matches anywhere yields its captured digit run; digits are
unchanged by lower-casing, so the capture equals the source capture. -/
def extractActivityId (raw : String) : String :=
  match activityPatterns.findSome?
      (fun pat => (findIdAfter pat.data (jsToLower raw).data).map (⟨·⟩)) with
  | some s => s
  | none => ""

/-- Remove every trailing `/` (JS `replace(/\/+$/, "")`). -/
def stripTrailingSlashes (s : String) : String :=
  ⟨(s.data.reverse.dropWhile (· == '/')).reverse⟩

/-- Embedding of `normalizeUrlForKey` (lines 4222-4233): the URL oracle
performs the `new URL` round trip with `search`/`hash` cleared; trailing
slashes are stripped from its serialisation, and a throwing constructor keeps
the raw cleaned string. -/
def normalizeUrlForKey (env : JsEnv) (rawUrl : String) : String :=
  let raw := cleanText rawUrl
  if raw = "" then ""
  else
    match env.urlParse raw with
    | some u => stripTrailingSlashes u
    | none => raw

/-- Hinnant civil-from-days conversion: day number since 1970-01-01 to
`(year, month, day)` in the proleptic Gregorian calendar (what
`Date.prototype.toISOString` prints). -/
def civilFromDays (z : Int) : Int × Int × Int :=
  let z' := z + 719468
  let era := Int.fdiv z' 146097
  let doe := z' - era * 146097
  let yoe := Int.fdiv (doe - Int.fdiv doe 1460 + Int.fdiv doe 36524 - Int.fdiv doe 146096) 365
  let y := yoe + era * 400
  let doy := doe - (365 * yoe + Int.fdiv yoe 4 - Int.fdiv yoe 100)
  let mp := Int.fdiv (5 * doy + 2) 153
  let d := doy - Int.fdiv (153 * mp + 2) 5 + 1
  let m := mp + (if mp < 10 then 3 else -9)
  (if m ≤ 2 then y + 1 else y, m, d)

/-- Zero-pad to two digits. -/
def pad2 (n : Nat) : String := if n < 10 then "0" ++ toString n else toString n

/-- Zero-pad to four digits (`toISOString` year field; the contemporary
timestamps in scope all have 4-digit years). -/
def pad4 (n : Nat) : String :=
  if n < 10 then "000" ++ toString n
  else if n < 100 then "00" ++ toString n
  else if n < 1000 then "0" ++ toString n
  else toString n

/-- JavaScript `new Date(ms).toISOString().slice(0, 10)`: the UTC calendar
day of a millisecond instant. -/
def isoDayStr (ms : Int) : String :=
  let c := civilFromDays (Int.fdiv ms 86400000)
  pad4 c.1.toNat ++ "-" ++ pad2 c.2.1.toNat ++ "-" ++ pad2 c.2.2.toNat

/-- Embedding of `normalizedDay` (lines 4235-4239). -/
def normalizedDay (env : JsEnv) (raw : String) : String :=
  match env.dateParse (cleanText raw) with
  | none => ""
  | some ms => isoDayStr ms

/-- Embedding of `normalizedSnippet` (lines 4241-4246): clean, lower-case,
collapse whitespace, first 200 characters.  (JS `slice` counts UTF-16 units;
all text in scope is in the basic plane, where the counts coincide.) -/
def normalizedSnippet (raw : String) : String :=
  ⟨(collapseWsAux false (jsToLower (cleanText raw)).data).take 200⟩

/-- The `extractActivityId(url) || extractActivityId(title) || ...` falsy
chain shared by `postIdentityKey` and `resolvePostUrl` (lines 4249-4253). -/
def postActivityId (p : Post) : String :=
  orStr (extractActivityId (p.post_url.getD ""))
    (orStr (extractActivityId (p.title.getD ""))
      (orStr (extractActivityId (p.content.getD "")) (extractActivityId (p.text.getD ""))))

/-- Embedding of `postIdentityKey` (lines 4248-4262): activity id first, then
normalised URL, then the day/snippet text fingerprint. -/
def postIdentityKey (env : JsEnv) (p : Post) : String :=
  let activityId := postActivityId p
  if activityId ≠ "" then "activity:" ++ activityId
  else
    let normalizedUrl := normalizeUrlForKey env (p.post_url.getD "")
    if normalizedUrl ≠ "" then "url:" ++ normalizedUrl
    else
      let day := normalizedDay env (orFalsyStr p.posted_at_iso (orFalsyStr p.posted_at ""))
      let snippet :=
        normalizedSnippet (orFalsyStr p.text (orFalsyStr p.content (orFalsyStr p.title "")))
      "txt:" ++ day ++ "|" ++ snippet

/-- Insertion-ordered map model of the JS `Map` used by `dedupePosts`:
`set` on a present key updates the value in place (iteration order keeps the
first-insertion position), otherwise appends. -/
abbrev KeyMap := List (String × Post)

/-- JS `Map.prototype.set`. -/
def mapSet (m : KeyMap) (k : String) (v : Post) : KeyMap :=
  if m.any (fun e => e.1 = k) then m.map (fun e => if e.1 = k then (k, v) else e)
  else m ++ [(k, v)]

/-- JS `Map.prototype.get` (`none` for `undefined`). -/
def mapGet (m : KeyMap) (k : String) : Option Post :=
  (m.find? (fun e => e.1 = k)).map (·.2)

/-- One iteration of the `dedupePosts` loop (lines 4266-4283). -/
def dedupeStep (env : JsEnv) (m : KeyMap) (p : Post) : KeyMap :=
  let key := postIdentityKey env p
  if key = "" then m
  else
    match mapGet m key with
    | none => mapSet m key p
    | some existing =>
      if scorePost existing < scorePost p ∨
          (scorePost p = scorePost existing ∧
            jsGtOpt (postDateMs env p) (postDateMs env existing) = true) then
        mapSet m key p
      else m

/-- Embedding of `dedupePosts` (lines 4264-4285): fold the loop over the input
and return the `Map`'s values in iteration order. -/
def dedupePosts (env : JsEnv) (posts : List Post) : List Post :=
  (posts.foldl (dedupeStep env) []).map (·.2)

/-- Invariant of the `dedupePosts` fold after processing the posts in `seen`:
entry keys are the keys of their values and pairwise distinct, every value was
seen, every seen post is dominated (score-wise, and date-wise on score ties)
by the entry holding its key, and every seen post has an entry for its key. -/
structure GoodMap (env : JsEnv) (seen : List Post) (m : KeyMap) : Prop where
  keysEq : ∀ e ∈ m, postIdentityKey env e.2 = e.1
  nodup : (m.map Prod.fst).Nodup
  mem : ∀ e ∈ m, e.2 ∈ seen
  maxScore : ∀ p ∈ seen, ∀ e ∈ m, postIdentityKey env p = e.1 → scorePost p ≤ scorePost e.2
  maxDate : ∀ p ∈ seen, ∀ e ∈ m, postIdentityKey env p = e.1 →
    scorePost p = scorePost e.2 →
    ∀ dp de, postDateMs env p = some dp → postDateMs env e.2 = some de → dp ≤ de
  complete : ∀ p ∈ seen, ∃ e ∈ m, e.1 = postIdentityKey env p

/-- Oracle instance with no parseable URLs or dates (the concrete inputs used
by witnesses have no URL/date component that the browser would accept). -/
def envNull : JsEnv := ⟨fun _ => none, fun _ => none⟩

/-- Concrete post for the C1 witness. -/
def wPost : Post := { text := some "sample post body for the dedupe witness" }

/-- First capture of a post, without metrics (C10 counterexample input). -/
def cexA : Post := { text := some "first capture of the same post" }

/-- Later capture of the same post, with metrics; it replaces `cexA` in place
at the key's first-occurrence position. -/
def cexA2 : Post := { text := some "first capture of the same post", reactions_count := some 5 }

/-- An unrelated post sitting between the two captures. -/
def cexB : Post := { text := some "a different post entirely" }

/-- Concrete post whose URL is a `feed/update` URN shape (C6 witness). -/
def c6p : Post :=
  { post_url := some "https://www.linkedin.com/feed/update/urn:li:activity:7123456789012/" }

/-- Concrete post whose URL is a `posts/..._activity-<id>-` shape carrying the
same activity id (C6 witness). -/
def c6q : Post :=
  { post_url :=
      some "https://www.linkedin.com/posts/jane-doe_great-insights-activity-7123456789012-AbCd" }

/-- Item of the ranking lists built by `pickTopPosts` (lines 4318-4331): a
post with its precomputed score and its dated timestamp (0 for undated
entries of the fallback list). -/
structure Ranked where
  post : Post
  score : ℚ
  postedAtMs : Int
deriving DecidableEq

/-- The comparator of `pickTopPosts` (lines 4333-4336), read as the relation
"may be placed first": strictly higher score first, score ties broken by
higher (more recent) `postedAtMs`.  `Array.prototype.sort` is stable and this
comparator is a total preorder, so every stable sort produces the same output;
the embedding uses stable insertion sort. -/
def topOrder (a b : Ranked) : Prop :=
  b.score < a.score ∨ (a.score = b.score ∧ b.postedAtMs ≤ a.postedAtMs)

instance : DecidableRel topOrder := fun a b => by
  unfold topOrder; infer_instance

instance : IsTotal Ranked topOrder := by
  constructor
  intro a b
  rcases lt_trichotomy a.score b.score with h | h | h
  · exact Or.inr (Or.inl h)
  · rcases le_total a.postedAtMs b.postedAtMs with hd | hd
    · exact Or.inr (Or.inr ⟨h.symm, hd⟩)
    · exact Or.inl (Or.inr ⟨h, hd⟩)
  · exact Or.inl (Or.inl h)

instance : IsTrans Ranked topOrder := by
  constructor
  intro a b c hab hbc
  rcases hab with hab | ⟨hab1, hab2⟩
  · rcases hbc with hbc | ⟨hbc1, hbc2⟩
    · exact Or.inl (lt_trans hbc hab)
    · exact Or.inl (lt_of_le_of_lt (le_of_eq hbc1.symm) hab)
  · rcases hbc with hbc | ⟨hbc1, hbc2⟩
    · exact Or.inl (lt_of_lt_of_le hbc (le_of_eq hab1.symm))
    · exact Or.inr ⟨hab1.trans hbc1, le_trans hbc2 hab2⟩

/-- The loop of `pickTopPosts` (lines 4318-4331) building
`(rankedInWindow, rankedFallback)` in input order: every record enters the
fallback list (undated ones with `postedAtMs := 0`), and dated records at or
after the cutoff also enter the window list. -/
def buildRanked (env : JsEnv) (cutoff : Int) : List Post → List Ranked × List Ranked
  | [] => ([], [])
  | p :: rest =>
    let wf := buildRanked env cutoff rest
    match postDateMs env p with
    | some ms =>
      (if cutoff ≤ ms then ⟨p, scorePost p, ms⟩ :: wf.1 else wf.1,
        ⟨p, scorePost p, ms⟩ :: wf.2)
    | none => (wf.1, ⟨p, scorePost p, 0⟩ :: wf.2)

/-- Whether one record qualifies for the recency window: its posted-at date
parses and lies at or after the cutoff (the test at lines 4323-4325). -/
def inWindow (env : JsEnv) (cutoff : Int) (p : Post) : Bool :=
  match postDateMs env p with
  | some ms => decide (cutoff ≤ ms)
  | none => false

/-- Constant `PROFILE_TOP_POSTS_WINDOW_DAYS` (line 3763). -/
def PROFILE_TOP_POSTS_WINDOW_DAYS : Int := 90

/-- Constant `PROFILE_TOP_POSTS_LIMIT` (line 3764). -/
def PROFILE_TOP_POSTS_LIMIT : Nat := 10

/-- Embedding of `pickTopPosts` (lines 4315-4345) up to the final per-item UI
projection: dedupe, split into window/fallback ranking lists, stable-sort the
window list if nonempty and the fallback list otherwise, and keep the first
`topN` items. -/
def pickTopPostsItems (env : JsEnv) (now days : Int) (topN : Nat)
    (posts : List Post) : List Ranked :=
  let uniquePosts := dedupePosts env posts
  let cutoff := now - days * 86400000
  let wf := buildRanked env cutoff uniquePosts
  if 0 < wf.1.length then (List.insertionSort topOrder wf.1).take topN
  else (List.insertionSort topOrder wf.2).take topN

/-- Embedding of `pickTopPosts` including the final `.map(mapPostForUi)`.  The
per-item projection `mapPostForUi` (lines 4301-4313) only reshapes one record
for the UI (its `resolvePostUrl` serialises the whole post through the
browser's `JSON.stringify`), so it is abstracted as the parameter `ui`; the
ranking structure lives in `pickTopPostsItems`. -/
def pickTopPosts {α : Type} (ui : Post → ℚ → α) (env : JsEnv) (now days : Int)
    (topN : Nat) (posts : List Post) : List α :=
  (pickTopPostsItems env now days topN posts).map (fun i => ui i.post i.score)

/-- Profile with a single undated post for the C8 witness: no post qualifies
for the recency window, yet the ranked output is non-empty. -/
def c8post : Post := { text := some "an old post outside the recency window" }

end Scrape

namespace Popup

open Js Scrape

/-- Popup-side `normalizedSnippet` (popup.js lines 144-149): same pipeline as
the background one but keeping the first 220 characters. -/
def normalizedSnippet (raw : String) : String :=
  ⟨(collapseWsAux false (jsToLower (cleanText raw)).data).take 220⟩

/-- Embedding of `normalizeLinkedInUrl` (popup.js lines 170-185): an embedded
activity id canonicalises to the `feed/update` URN shape, otherwise the URL is
stripped of query/fragment (oracle) and trailing slashes.
`extractActivityId` in popup.js lines 151-168 is character-for-character the
background one, so the `Scrape` embedding is reused. -/
def normalizeLinkedInUrl (env : JsEnv) (rawUrl : String) : String :=
  let raw := cleanText rawUrl
  if raw = "" then ""
  else
    let activityId := Scrape.extractActivityId raw
    if activityId ≠ "" then
      "https://www.linkedin.com/feed/update/urn:li:activity:" ++ activityId ++ "/"
    else
      match env.urlParse raw with
      | some u => stripTrailingSlashes u
      | none => raw

/-- JS `Set.prototype.add` on the insertion-ordered list model of a `Set`. -/
def setAdd (s : List String) (k : String) : List String :=
  if k ∈ s then s else s ++ [k]

/-- Embedding of `postIdentityKeys` (popup.js lines 202-224): the set of keys
of one record — activity key, url key, day-specific text key (only when a day
parses), and always the day-agnostic text key, snippet permitting. -/
def postIdentityKeys (env : JsEnv) (p : Post) : List String :=
  let activityId :=
    orStr (extractActivityId (p.post_url.getD ""))
      (orStr (extractActivityId (p.title.getD ""))
        (orStr (extractActivityId (p.content.getD "")) (extractActivityId (p.text.getD ""))))
  let keys : List String := if activityId ≠ "" then setAdd [] ("activity:" ++ activityId) else []
  let normalizedUrl := normalizeLinkedInUrl env (p.post_url.getD "")
  let keys := if normalizedUrl ≠ "" then setAdd keys ("url:" ++ normalizedUrl) else keys
  let snippet :=
    normalizedSnippet (orFalsyStr p.content (orFalsyStr p.text (orFalsyStr p.title "")))
  if snippet ≠ "" then
    let day := normalizedDay env (orFalsyStr p.posted_at (orFalsyStr p.posted_at_iso ""))
    let keys := if day ≠ "" then setAdd keys ("txt:" ++ day ++ "|" ++ snippet) else keys
    setAdd keys ("txt:|" ++ snippet)
  else keys

/-- Embedding of `hasStableIdentityKey` (popup.js lines 226-231). -/
def hasStableIdentityKey (keys : List String) : Bool :=
  keys.any (fun k => strStartsWith k "activity:" || strStartsWith k "url:")

/-- Embedding of `isDuplicateAgainstKeySet` (popup.js lines 233-267): stable
keys first; then day-specific text keys, widened with the day-agnostic keys
when the fingerprint is strong (at least 80 characters); each batch checked
plainly and then under the `legacy_` marker. -/
def isDuplicateAgainstKeySet (env : JsEnv) (p : Post) (keySet : List String) : Bool :=
  let keys := postIdentityKeys env p
  if keys.isEmpty then false
  else
    let snippet :=
      normalizedSnippet (orFalsyStr p.content (orFalsyStr p.text (orFalsyStr p.title "")))
    let isStrongTextFingerprint := decide (80 ≤ snippet.length)
    let stableKeys :=
      keys.filter (fun k => strStartsWith k "activity:" || strStartsWith k "url:")
    let textKeys :=
      keys.filter (fun k =>
        !(strStartsWith k "activity:" || strStartsWith k "url:") && strStartsWith k "txt:")
    if stableKeys.any (fun k => decide (k ∈ keySet)) then true
    else
      let daySpecificTextKeys :=
        textKeys.filter (fun k => strStartsWith k "txt:" && !strStartsWith k "txt:|")
      let noDayTextKeys := textKeys.filter (fun k => strStartsWith k "txt:|")
      let keysToCheck :=
        if isStrongTextFingerprint then daySpecificTextKeys ++ noDayTextKeys
        else daySpecificTextKeys
      if keysToCheck.any (fun k => decide (k ∈ keySet)) then true
      else keysToCheck.any (fun k => decide (("legacy_" ++ k) ∈ keySet))

/-- Embedding of `addIdentityKeysToSet` (popup.js lines 275-286): register all
keys, and for records with no stable key also register every text key under
the `legacy_` marker. -/
def addIdentityKeysToSet (env : JsEnv) (s : List String) (p : Post) : List String :=
  let keys := postIdentityKeys env p
  if keys.isEmpty then s
  else
    let s := keys.foldl (fun acc k => if k ≠ "" then setAdd acc k else acc) s
    if hasStableIdentityKey keys then s
    else
      (keys.filter (fun k => strStartsWith k "txt:")).foldl
        (fun acc k => if k ≠ "" then setAdd acc ("legacy_" ++ k) else acc) s

/-- Registered earlier capture for the C7 witness: no URL, no id, only text. -/
def c7p : Post :=
  { content := some "a long post body that serves as a strong text fingerprint for deduplication checks" }

/-- Later capture of the same post, now carrying a stable activity-id URL. -/
def c7q : Post :=
  { content := some "a long post body that serves as a strong text fingerprint for deduplication checks",
    post_url := some "https://www.linkedin.com/feed/update/urn:li:activity:7000011122233/" }

end Popup

namespace Assist

open Js

/-- The status-line state written by `setCommentAssistStatus` /
`setCommentAssistError` (server-setup.sh lines 3149-3175). -/
structure AssistStatus where
  statusText : String
  statusKind : String
  statusDetails : String
deriving DecidableEq

/-- Status message for network failure (line 3161). -/
def MSG_NETWORK : String := "Нет связи с backend. Проверь адрес в extension options."

/-- Status message for the unauthenticated case (line 3163). -/
def MSG_LOGIN : String := "Нужен вход в MyVOICE. Открой extension options и нажми Open Login."

/-- Status message for 403 (line 3165). -/
def MSG_FORBIDDEN : String := "Доступ к генерации ограничен. Проверь тариф или лимиты."

/-- Status message for 404 (line 3167). -/
def MSG_NOT_FOUND : String := "Сервис генерации не найден на backend."

/-- Status message for "no persona selected" (line 3169). -/
def MSG_PICK_AUTHOR : String := "Выберите автора в блоке MyVOICE's и попробуйте снова."

/-- Generic fallback status message (line 3158). -/
def MSG_GENERIC : String := "Ошибка генерации комментария."

/-- Embedding of `setCommentAssistError` (lines 3155-3175): classify the
lower-cased message by substring markers, network first, then unauthenticated
(401/unauthorized), 403, 404, missing persona; otherwise keep the raw message
(or the generic fallback when it is empty). -/
def setCommentAssistError (rawMessage : String) : AssistStatus :=
  let msg := cleanText rawMessage
  let low := jsToLower msg
  let text :=
    if strIncludes low "can't reach backend" || strIncludes low "failed to fetch" ||
        strIncludes low "network error" then MSG_NETWORK
    else if strIncludes low "401" || strIncludes low "unauthorized" then MSG_LOGIN
    else if strIncludes low "403" then MSG_FORBIDDEN
    else if strIncludes low "404" then MSG_NOT_FOUND
    else if strIncludes low "автор" &&
        (strIncludes low "не выбран" || strIncludes low "добав") then MSG_PICK_AUTHOR
    else if msg = "" then MSG_GENERIC
    else msg
  { statusText := text, statusKind := "error", statusDetails := msg }

/-- The JSON error payload fields inspected by `toBackendErrorMessage`. -/
structure BackendPayload where
  detail : Option String := none
  error : Option String := none
  message : Option String := none

/-- JS truthy-string filter: `typeof x === "string" && x`. -/
def nonemptyStr : Option String → Option String
  | some s => if s = "" then none else some s
  | none => none

/-- Embedding of `toBackendErrorMessage` (lines 3825-3832): first nonempty of
`detail`/`error`/`message`, else `"<fallback> (HTTP <status>)"`.  The callers
pass the default fallback `"Request failed"` (line 3860 calls it with the
default). -/
def toBackendErrorMessage (status : Nat) (payload : Option BackendPayload)
    (fallback : String) : String :=
  match payload with
  | some pl =>
    match nonemptyStr pl.detail with
    | some d => d
    | none =>
      match nonemptyStr pl.error with
      | some e => e
      | none =>
        match nonemptyStr pl.message with
        | some m => m
        | none => fallback ++ " (HTTP " ++ toString status ++ ")"
  | none => fallback ++ " (HTTP " ++ toString status ++ ")"

end Assist

namespace Orch

/-- What one caller of `getProfileTopPosts` observes on entry. -/
inductive EnterOutcome
  | cachedHit
  | joined (jobId : Nat)
  | started (jobId : Nat)
deriving DecidableEq

/-- Orchestrator state for one profile key: whether `topPostsCache` holds a
fresh entry, which job (if any) `topPostsInflight` holds, how many ephemeral
tabs have been created in total, and a fresh-job counter naming promises. -/
structure OrchState where
  cacheFresh : Bool
  inflight : Option Nat
  tabsOpened : Nat
  nextJobId : Nat
deriving DecidableEq

/-- Model of the synchronous entry segment of `getProfileTopPosts`
(server-setup.sh lines 4484-4564) for one profile key.  The extension's event
loop is single-threaded and this segment contains no `await` between the
cache check (line 4492), the in-flight check (line 4496), the synchronous
prefix of the async job body — which runs `topPostsJobs.set` and *initiates*
`chrome.tabs.create` inside `scrapeProfilePosts` (the body's first suspension
point) — and the registration in `topPostsInflight` (line 4558).  The whole
segment is therefore one atomic step of the interleaving model; `tabsOpened`
counts tab creations and the job id names the shared in-flight promise. -/
def enterRequest (s : OrchState) : OrchState × EnterOutcome :=
  if s.cacheFresh then (s, .cachedHit)
  else
    match s.inflight with
    | some j => (s, .joined j)
    | none =>
      ({ s with
          inflight := some s.nextJobId
          tabsOpened := s.tabsOpened + 1
          nextJobId := s.nextJobId + 1 },
        .started s.nextJobId)

/-- Completion of the in-flight job clears `topPostsInflight`
(lines 4559-4563). -/
def finishRequest (s : OrchState) : OrchState := { s with inflight := none }

/-- Clean starting state for the C2 witness. -/
def s0 : OrchState := ⟨false, none, 0, 0⟩

/-- Externally visible effects of one scrape job on its ephemeral tab. -/
inductive Effect
  | openTab (id : Nat)
  | reloadTab (id : Nat)
  | closeTab (id : Nat)
deriving DecidableEq

/-- Terminal classification of one scrape job. -/
inductive ScrapeOutcome
  | success
  | cancelled
  | failed
deriving DecidableEq

/-- Outcome of one `chrome.tabs.sendMessage` attempt inside
`requestPostsFromTab` (lines 4430-4445): the message resolves (with a usable
or unusable response), rejects with "Receiving end does not exist" (retryable;
the retry reloads the tab and re-awaits load-complete, which may itself
reject — `reloadOk`), or rejects with any other error. -/
inductive AttemptOutcome
  | ok (good : Bool)
  | recvEndMissing (reloadOk : Bool)
  | otherError

/-- Environment resolving every suspension point of one run of
`scrapeProfilePosts` (lines 4447-4482): the cooperative cancellation checks
at lines 4448, 4457, 4459, 4461 and 4476, tab creation, the load wait at
line 4458 (timeout and early tab closure both reject), and the send-message
attempts.  `createOk = false` models `chrome.tabs.create` failing to produce
a usable tab (the API attaches an id to every tab it creates, so the
defensive id check at lines 4450-4453 cannot fire for an actually-open
tab). -/
structure ScrapeEnv where
  cancelledAt1 : Bool
  createOk : Bool
  tabId : Nat
  cancelledAt2 : Bool
  waitOk : Bool
  cancelledAt3 : Bool
  cancelledAt4 : Bool
  attempts : Nat → AttemptOutcome
  cancelledAt5 : Bool

/-- Embedding of `requestPostsFromTab` (lines 4430-4445) with `n` attempts
remaining: `some good` when a response arrives, `none` when the call throws;
the effect list records tab reloads performed between attempts. -/
def requestPostsFromTab (env : ScrapeEnv) : Nat → Option Bool × List Effect
  | 0 => (none, [])
  | n + 1 =>
    match env.attempts (3 - (n + 1)) with
    | .ok good => (some good, [])
    | .otherError => (none, [])
    | .recvEndMissing reloadOk =>
      if n = 0 then (none, [])
      else if reloadOk then
        let r := requestPostsFromTab env n
        (r.1, Effect.reloadTab env.tabId :: r.2)
      else (none, [Effect.reloadTab env.tabId])

/-- The `try` block of `scrapeProfilePosts` (lines 4456-4477): cooperative
cancellation checks, the load wait, the extraction request and the response
checks, with the effects the block performs. -/
def scrapeBody (env : ScrapeEnv) : ScrapeOutcome × List Effect :=
  if env.cancelledAt2 then (.cancelled, [])
  else if ¬ env.waitOk then (.failed, [])
  else if env.cancelledAt3 then (.cancelled, [])
  else if env.cancelledAt4 then (.cancelled, [])
  else
    match (requestPostsFromTab env 3).1 with
    | none => (.failed, (requestPostsFromTab env 3).2)
    | some good =>
      if ¬ good then (.failed, (requestPostsFromTab env 3).2)
      else if env.cancelledAt5 then (.cancelled, (requestPostsFromTab env 3).2)
      else (.success, (requestPostsFromTab env 3).2)

/-- Embedding of `scrapeProfilePosts` (lines 4447-4482): cancellation check,
tab creation, then the `try` block with a `finally` that always runs
`safeCloseTab` — so every trace that opens the tab ends with its close. -/
def scrapeProfilePosts (env : ScrapeEnv) : ScrapeOutcome × List Effect :=
  if env.cancelledAt1 then (.cancelled, [])
  else if ¬ env.createOk then (.failed, [])
  else
    ((scrapeBody env).1,
      Effect.openTab env.tabId :: (scrapeBody env).2 ++ [Effect.closeTab env.tabId])

/-- Concrete environment for the C3 witness: the job is cancelled right after
the tab finishes loading. -/
def envC3 : ScrapeEnv :=
  { cancelledAt1 := false, createOk := true, tabId := 7, cancelledAt2 := false,
    waitOk := true, cancelledAt3 := true, cancelledAt4 := false,
    attempts := fun _ => .ok true, cancelledAt5 := false }

end Orch

/-! With the embedding in place, the development now turns to the
theorems: helper lemmas first, then one theorem per verified claim with
its witness or counterexample. -/

namespace Js

theorem intQ_eq (n : ℤ) : intQ n = (n : ℚ) := by
  simp [intQ, Rat.mkRat_one]

theorem qadd_eq (a b : ℚ) : qadd a b = a + b := by
  rw [qadd, Rat.mkRat_eq_div]
  have ha : (a.den : ℚ) ≠ 0 := by exact_mod_cast a.den_nz
  have hb : (b.den : ℚ) ≠ 0 := by exact_mod_cast b.den_nz
  conv_rhs => rw [← Rat.num_div_den a, ← Rat.num_div_den b]
  push_cast
  field_simp

theorem qmul_eq (a b : ℚ) : qmul a b = a * b := by
  rw [qmul, Rat.mkRat_eq_div]
  have ha : (a.den : ℚ) ≠ 0 := by exact_mod_cast a.den_nz
  have hb : (b.den : ℚ) ≠ 0 := by exact_mod_cast b.den_nz
  conv_rhs => rw [← Rat.num_div_den a, ← Rat.num_div_den b]
  push_cast
  field_simp

theorem jsRound_eq (q : ℚ) : jsRound q = ⌊q + 1/2⌋ := by
  have hden : (q.den : ℚ) ≠ 0 := by exact_mod_cast q.den_nz
  have h : q + 1/2 = ((2 * q.num + q.den : ℤ) : ℚ) / ((2 * q.den : ℕ) : ℚ) := by
    conv_lhs => rw [← Rat.num_div_den q]
    push_cast
    field_simp
    ring
  rw [jsRound, h, Rat.floor_intCast_div_natCast, Int.fdiv_eq_ediv _ (by positivity)]
  push_cast
  ring_nf

end Js

namespace Normalizer

open Js

example : parseNumberToken "1,234" = some 1234 := by decide

example : parseNumberToken "1.234,5" = some 1235 := by decide

example : parseNumberToken "2.5K" = some 2500 := by decide

example : parseNumberToken "3 тыс." = some 3 := by decide

example : parseNumberToken "" = none := by decide

example : parseNumberToken "1.2m" = some 1200000 := by decide

example : parsePublishedIso (fun _ => none) 0 "10 h" = some (-36000000) := by decide

example : parsePublishedIso (fun _ => none) 0 "0h" = none := by decide

/-- C4 counterexample: the claim expects `"3 тыс."` to normalise to 3000, but
the token regex recognises only the single-letter multiplier suffixes
(k/m, Latin or Cyrillic к/м); the Russian thousands word `тыс.` matches none
of them, so the value stays 3. -/
theorem parseNumberToken_russian_thousands_counterexample :
    parseNumberToken "3 тыс." = some 3 ∧ parseNumberToken "3 тыс." ≠ some 3000 :=
  ⟨by decide, by decide⟩

/-- C4 (amended): `parseNumberToken` maps `"1,234"` to 1234, `"1.234,5"` to
1235 (the rounding rule rounds half up), `"2.5K"` to 2500, and `"3 тыс."` to
3 — the Cyrillic thousands word is not a recognised suffix; only the
single-letter k/m/к/м suffixes scale the value. -/
theorem parseNumberToken_token_values :
    parseNumberToken "1,234" = some 1234 ∧
    parseNumberToken "1.234,5" = some 1235 ∧
    parseNumberToken "2.5K" = some 2500 ∧
    parseNumberToken "3 тыс." = some 3 :=
  ⟨by decide, by decide, by decide, by decide⟩

/-- C5 (code bug): the relative-time branch is correct on Latin tokens
(`"3h"` gives `now - 3` hours, `"1 year"` gives `now - 365` days), but the
regex demands a JavaScript `\b` word boundary after the matched unit and JS
`\w` is ASCII-only, so a boundary never follows a Cyrillic unit: every
Russian token — `"2 недели"` included — yields `null`, although the
`offsets` table lists all the Cyrillic units.  Evaluated with a direct-date
oracle rejecting these tokens (none of them parses as an absolute date), at
`now = 1760000000000`. -/
theorem parsePublishedIso_cyrillic_units_dead :
    parsePublishedIso (fun _ => none) 1760000000000 "3h" =
      some (1760000000000 - 3 * 3600000) ∧
    parsePublishedIso (fun _ => none) 1760000000000 "1 year" =
      some (1760000000000 - 365 * 86400000) ∧
    parsePublishedIso (fun _ => none) 1760000000000 "2 недели" = none :=
  ⟨by decide, by decide, by decide⟩

end Normalizer

namespace Scrape

open Js

/-- Appending a nonempty literal on the left keeps a string nonempty. -/
theorem append_lit_ne_empty (a s : String) (ha : a ≠ "") : a ++ s ≠ "" := by
  intro h
  have hd := congrArg String.data h
  rw [String.data_append] at hd
  rcases List.append_eq_nil.mp hd with ⟨h1, _⟩
  exact ha (String.ext h1)

/-- Every identity key is nonempty (it starts with `activity:`, `url:` or
`txt:`), so the `if (!key) continue` guard of the dedupe loop never fires. -/
theorem postIdentityKey_ne_empty (env : JsEnv) (p : Post) : postIdentityKey env p ≠ "" := by
  simp only [postIdentityKey]
  split
  · exact append_lit_ne_empty _ _ (by decide)
  · split
    · exact append_lit_ne_empty _ _ (by decide)
    · exact append_lit_ne_empty _ _
        (append_lit_ne_empty _ _ (append_lit_ne_empty _ _ (by decide)))

theorem mapGet_none_iff (m : KeyMap) (k : String) :
    mapGet m k = none ↔ ∀ e ∈ m, e.1 ≠ k := by
  simp [mapGet, List.find?_eq_none]

theorem mapGet_some (m : KeyMap) (k : String) (r : Post) (h : mapGet m k = some r) :
    ∃ e ∈ m, e.1 = k ∧ e.2 = r := by
  simp only [mapGet, Option.map_eq_some'] at h
  obtain ⟨e, hfind, hr⟩ := h
  refine ⟨e, List.mem_of_find?_eq_some hfind, ?_, hr⟩
  have := List.find?_some hfind
  simpa using this

theorem mapSet_append (m : KeyMap) (k : String) (v : Post)
    (h : ∀ e ∈ m, e.1 ≠ k) : mapSet m k v = m ++ [(k, v)] := by
  rw [mapSet, if_neg]
  simp only [List.any_eq_true, decide_eq_true_eq, not_exists, not_and]
  exact h

theorem mapSet_update (m : KeyMap) (k : String) (v : Post)
    (h : ∃ e ∈ m, e.1 = k) :
    mapSet m k v = m.map (fun e => if e.1 = k then (k, v) else e) := by
  rw [mapSet, if_pos]
  simp only [List.any_eq_true, decide_eq_true_eq]
  exact h

/-- Updating a present key does not change the key sequence of the map. -/
theorem mapSet_update_keys (m : KeyMap) (k : String) (v : Post) :
    ((m.map (fun e => if e.1 = k then (k, v) else e)).map Prod.fst) = m.map Prod.fst := by
  simp only [List.map_map]
  apply List.map_congr_left
  intro e _
  by_cases h : e.1 = k <;> simp [h]

/-- With pairwise-distinct keys, two entries sharing a key coincide. -/
theorem nodup_keys_unique {m : KeyMap} (hnd : (m.map Prod.fst).Nodup) :
    ∀ e ∈ m, ∀ e' ∈ m, e.1 = e'.1 → e = e' := by
  induction m with
  | nil => simp
  | cons x m ih =>
    simp only [List.map_cons, List.nodup_cons] at hnd
    intro e he e' he' hk
    have hxm : ∀ z ∈ m, x.1 ≠ z.1 := by
      intro z hz hzz
      exact hnd.1 (hzz ▸ List.mem_map_of_mem Prod.fst hz)
    rcases List.mem_cons.mp he with h1 | h1
    · rcases List.mem_cons.mp he' with h2 | h2
      · rw [h1, h2]
      · refine absurd ?_ (hxm e' h2)
        rw [← h1]; exact hk
    · rcases List.mem_cons.mp he' with h2 | h2
      · refine absurd ?_ (hxm e h1)
        rw [← h2]; exact hk.symm
      · exact ih hnd.2 e h1 e' h2 hk

theorem jsGtOpt_true_iff (a b : Option Int) :
    jsGtOpt a b = true ↔ ∃ x y, a = some x ∧ b = some y ∧ y < x := by
  cases a <;> cases b <;> simp [jsGtOpt]

/-- One dedupe-loop iteration preserves the fold invariant. -/
theorem dedupeStep_good (env : JsEnv) {seen : List Post} {m : KeyMap} (p : Post)
    (h : GoodMap env seen m) : GoodMap env (seen ++ [p]) (dedupeStep env m p) := by
  have hkne := postIdentityKey_ne_empty env p
  have hp : p ∈ seen ++ [p] := List.mem_append_right _ (List.mem_singleton.mpr rfl)
  simp only [dedupeStep]
  rw [if_neg hkne]
  cases hget : mapGet m (postIdentityKey env p) with
  | none =>
    have hnotin : ∀ e ∈ m, e.1 ≠ postIdentityKey env p := (mapGet_none_iff _ _).mp hget
    show GoodMap env (seen ++ [p]) (mapSet m (postIdentityKey env p) p)
    rw [mapSet_append _ _ _ hnotin]
    refine ⟨?_, ?_, ?_, ?_, ?_, ?_⟩
    · intro e he
      rcases List.mem_append.mp he with he | he
      · exact h.keysEq e he
      · rw [List.mem_singleton.mp he]
    · rw [List.map_append]
      refine List.Nodup.append h.nodup (by simp) ?_
      intro a ha hb
      simp only [List.map_cons, List.map_nil, List.mem_singleton] at hb
      obtain ⟨e, he, hfe⟩ := List.mem_map.mp ha
      exact hnotin e he (hfe.trans hb)
    · intro e he
      rcases List.mem_append.mp he with he | he
      · exact List.mem_append_left _ (h.mem e he)
      · rw [List.mem_singleton.mp he]; exact hp
    · intro q hq e he hkey
      rcases List.mem_append.mp hq with hq | hq
      · rcases List.mem_append.mp he with he | he
        · exact h.maxScore q hq e he hkey
        · obtain ⟨e', he', he'k⟩ := h.complete q hq
          rw [List.mem_singleton.mp he] at hkey
          exact absurd (he'k.trans hkey) (hnotin e' he')
      · rw [List.mem_singleton.mp hq] at hkey ⊢
        rcases List.mem_append.mp he with he | he
        · exact absurd hkey.symm (hnotin e he)
        · rw [List.mem_singleton.mp he]
    · intro q hq e he hkey hsc dp de hdp hde
      rcases List.mem_append.mp hq with hq | hq
      · rcases List.mem_append.mp he with he | he
        · exact h.maxDate q hq e he hkey hsc dp de hdp hde
        · obtain ⟨e', he', he'k⟩ := h.complete q hq
          rw [List.mem_singleton.mp he] at hkey
          exact absurd (he'k.trans hkey) (hnotin e' he')
      · rw [List.mem_singleton.mp hq] at hkey hdp
        rcases List.mem_append.mp he with he | he
        · exact absurd hkey.symm (hnotin e he)
        · rw [List.mem_singleton.mp he] at hde
          simp only at hde
          rw [hdp] at hde
          exact le_of_eq (Option.some.inj hde)
    · intro q hq
      rcases List.mem_append.mp hq with hq | hq
      · obtain ⟨e, he, hek⟩ := h.complete q hq
        exact ⟨e, List.mem_append_left _ he, hek⟩
      · rw [List.mem_singleton.mp hq]
        exact ⟨(postIdentityKey env p, p), List.mem_append_right _ (by simp), rfl⟩
  | some r =>
    show GoodMap env (seen ++ [p])
      (if scorePost r < scorePost p ∨
          (scorePost p = scorePost r ∧
            jsGtOpt (postDateMs env p) (postDateMs env r) = true) then
        mapSet m (postIdentityKey env p) p
      else m)
    obtain ⟨e0, he0, he0k, he0r⟩ := mapGet_some _ _ _ hget
    have huniq : ∀ e ∈ m, e.1 = postIdentityKey env p → e = e0 := by
      intro e he hek
      exact nodup_keys_unique h.nodup e he e0 he0 (hek.trans he0k.symm)
    by_cases hrep : scorePost r < scorePost p ∨
        (scorePost p = scorePost r ∧
          jsGtOpt (postDateMs env p) (postDateMs env r) = true)
    · rw [if_pos hrep, mapSet_update _ _ _ ⟨e0, he0, he0k⟩]
      refine ⟨?_, ?_, ?_, ?_, ?_, ?_⟩
      · intro e' he'
        obtain ⟨e, he, hfe⟩ := List.mem_map.mp he'
        by_cases hek : e.1 = postIdentityKey env p
        · rw [if_pos hek] at hfe
          rw [← hfe]
        · rw [if_neg hek] at hfe
          rw [← hfe]
          exact h.keysEq e he
      · rw [mapSet_update_keys]
        exact h.nodup
      · intro e' he'
        obtain ⟨e, he, hfe⟩ := List.mem_map.mp he'
        by_cases hek : e.1 = postIdentityKey env p
        · rw [if_pos hek] at hfe
          rw [← hfe]
          exact hp
        · rw [if_neg hek] at hfe
          rw [← hfe]
          exact List.mem_append_left _ (h.mem e he)
      · intro q hq e' he' hkey
        obtain ⟨e, he, hfe⟩ := List.mem_map.mp he'
        by_cases hek : e.1 = postIdentityKey env p
        · rw [if_pos hek] at hfe
          rw [← hfe] at hkey ⊢
          simp only at hkey ⊢
          rcases List.mem_append.mp hq with hq | hq
          · have hqr : scorePost q ≤ scorePost r := by
              have := h.maxScore q hq e0 he0 (hkey.trans he0k.symm)
              rwa [he0r] at this
            rcases hrep with hlt | ⟨htie, _⟩
            · exact le_of_lt (lt_of_le_of_lt hqr hlt)
            · rw [htie]
              exact hqr
          · rw [List.mem_singleton.mp hq]
        · rw [if_neg hek] at hfe
          rw [← hfe] at hkey ⊢
          rcases List.mem_append.mp hq with hq | hq
          · exact h.maxScore q hq e he hkey
          · rw [List.mem_singleton.mp hq] at hkey
            exact absurd hkey.symm hek
      · intro q hq e' he' hkey hsc dp de hdp hde
        obtain ⟨e, he, hfe⟩ := List.mem_map.mp he'
        by_cases hek : e.1 = postIdentityKey env p
        · rw [if_pos hek] at hfe
          rw [← hfe] at hkey hsc hde
          simp only at hkey hsc hde
          rcases List.mem_append.mp hq with hq | hq
          · rcases hrep with hlt | ⟨htie, hgt⟩
            · have hqr : scorePost q ≤ scorePost r := by
                have := h.maxScore q hq e0 he0 (hkey.trans he0k.symm)
                rwa [he0r] at this
              rw [hsc] at hqr
              exact absurd hlt (not_lt.mpr hqr)
            · obtain ⟨dpx, dry, hdpx, hdry, hlt⟩ := (jsGtOpt_true_iff _ _).mp hgt
              have hqd : dp ≤ dry := by
                have := h.maxDate q hq e0 he0 (hkey.trans he0k.symm)
                  (by rw [he0r, ← htie, hsc]) dp dry hdp (by rw [he0r, hdry])
                exact this
              have : de = dpx := by
                rw [hdpx] at hde
                exact (Option.some.inj hde).symm
              rw [this]
              exact le_of_lt (lt_of_le_of_lt hqd hlt)
          · rw [List.mem_singleton.mp hq] at hdp
            rw [hdp] at hde
            exact le_of_eq (Option.some.inj hde)
        · rw [if_neg hek] at hfe
          rw [← hfe] at hkey hsc hde
          rcases List.mem_append.mp hq with hq | hq
          · exact h.maxDate q hq e he hkey hsc dp de hdp hde
          · rw [List.mem_singleton.mp hq] at hkey
            exact absurd hkey.symm hek
      · intro q hq
        rcases List.mem_append.mp hq with hq | hq
        · obtain ⟨e, he, hek⟩ := h.complete q hq
          refine ⟨(if e.1 = postIdentityKey env p then (postIdentityKey env p, p) else e),
            List.mem_map.mpr ⟨e, he, rfl⟩, ?_⟩
          by_cases hk2 : e.1 = postIdentityKey env p
          · rw [if_pos hk2]
            rw [← hk2]
            exact hek
          · rw [if_neg hk2]
            exact hek
        · rw [List.mem_singleton.mp hq]
          refine ⟨(postIdentityKey env p, p), List.mem_map.mpr ⟨e0, he0, ?_⟩, rfl⟩
          rw [if_pos he0k]
    · rw [if_neg hrep]
      push_neg at hrep
      obtain ⟨hnlt, hntie⟩ := hrep
      refine ⟨h.keysEq, h.nodup, ?_, ?_, ?_, ?_⟩
      · intro e he
        exact List.mem_append_left _ (h.mem e he)
      · intro q hq e he hkey
        rcases List.mem_append.mp hq with hq | hq
        · exact h.maxScore q hq e he hkey
        · rw [List.mem_singleton.mp hq] at hkey ⊢
          have := huniq e he hkey.symm
          rw [this, he0r]
          exact hnlt
      · intro q hq e he hkey hsc dp de hdp hde
        rcases List.mem_append.mp hq with hq | hq
        · exact h.maxDate q hq e he hkey hsc dp de hdp hde
        · rw [List.mem_singleton.mp hq] at hkey hsc hdp
          have heq := huniq e he hkey.symm
          rw [heq, he0r] at hsc hde
          have hgt := hntie hsc
          rw [hdp, hde] at hgt
          have hnot : ¬ (de < dp) := fun hlt => hgt (by simp [jsGtOpt, hlt])
          exact not_lt.mp hnot
      · intro q hq
        rcases List.mem_append.mp hq with hq | hq
        · exact h.complete q hq
        · rw [List.mem_singleton.mp hq]
          exact ⟨e0, he0, he0k⟩

/-- The fold invariant holds after folding any list of posts. -/
theorem dedupe_fold_good (env : JsEnv) (l : List Post) :
    ∀ (seen : List Post) (m : KeyMap), GoodMap env seen m →
      GoodMap env (seen ++ l) (l.foldl (dedupeStep env) m) := by
  induction l with
  | nil => intro seen m h; simpa using h
  | cons p l ih =>
    intro seen m h
    have h' := dedupeStep_good env p h
    have := ih (seen ++ [p]) (dedupeStep env m p) h'
    simpa using this

/-- The invariant instantiated at `dedupePosts`' actual starting state. -/
theorem dedupePosts_good (env : JsEnv) (posts : List Post) :
    GoodMap env posts (posts.foldl (dedupeStep env) []) := by
  have h0 : GoodMap env [] ([] : KeyMap) := by
    refine ⟨?_, ?_, ?_, ?_, ?_, ?_⟩ <;> simp
  simpa using dedupe_fold_good env posts [] [] h0

/-- Folding posts whose keys are fresh (pairwise distinct and absent from the
map) just appends one entry per post, in order. -/
theorem foldl_dedupeStep_fresh (env : JsEnv) (l : List Post) :
    ∀ (m : KeyMap),
      (∀ p ∈ l, ∀ e ∈ m, postIdentityKey env p ≠ e.1) →
      ((l.map (postIdentityKey env)).Nodup) →
      l.foldl (dedupeStep env) m = m ++ l.map (fun p => (postIdentityKey env p, p)) := by
  induction l with
  | nil => intro m _ _; simp
  | cons p l ih =>
    intro m hdisj hnd
    simp only [List.map_cons, List.nodup_cons] at hnd
    have hstep : dedupeStep env m p = m ++ [(postIdentityKey env p, p)] := by
      simp only [dedupeStep]
      rw [if_neg (postIdentityKey_ne_empty env p)]
      have hnone : mapGet m (postIdentityKey env p) = none := by
        rw [mapGet_none_iff]
        intro e he hek
        exact hdisj p (by simp) e he hek.symm
      rw [hnone]
      exact mapSet_append _ _ _ fun e he hek => hdisj p (by simp) e he hek.symm
    rw [List.foldl_cons, hstep,
      ih (m ++ [(postIdentityKey env p, p)]) ?_ hnd.2]
    · simp
    · intro q hq e he
      rcases List.mem_append.mp he with he | he
      · exact hdisj q (List.mem_cons_of_mem _ hq) e he
      · rw [List.mem_singleton.mp he]
        intro hqe
        have hqp : postIdentityKey env q = postIdentityKey env p := hqe
        exact hnd.1 (hqp ▸ List.mem_map_of_mem (postIdentityKey env) hq)

/-- C1: `dedupePosts` groups records by identity key; among the records
colliding on the key of a surviving record, the survivor has maximal score,
and among score ties it has the maximal parsed posted-at date; the score is
`reactions + comments*3 + reposts*2 + views*0.02` (reactions falling back to
`likes_count`), with absent counts contributing 0. -/
theorem dedupePosts_keeps_best (env : JsEnv) (posts : List Post) (k : String) (r : Post)
    (hr : r ∈ dedupePosts env posts) (hk : postIdentityKey env r = k) :
    r ∈ posts ∧
    (∀ p ∈ posts, postIdentityKey env p = k → scorePost p ≤ scorePost r) ∧
    (∀ p ∈ posts, postIdentityKey env p = k → scorePost p = scorePost r →
      ∀ dp dr, postDateMs env p = some dp → postDateMs env r = some dr → dp ≤ dr) ∧
    (∀ a b c d : ℤ,
      scorePost { reactions_count := some a, comments_count := some b,
                  reposts_count := some c, views_count := some d } =
        (a : ℚ) + (b : ℚ) * 3 + (c : ℚ) * 2 + (d : ℚ) * (2 / 100)) ∧
    scorePost {} = 0 := by
  have hg := dedupePosts_good env posts
  obtain ⟨e, he, her⟩ := List.mem_map.mp hr
  have hek : e.1 = k := by
    rw [← hk, ← her]
    exact (hg.keysEq e he).symm
  refine ⟨her ▸ hg.mem e he, ?_, ?_, ?_, ?_⟩
  · intro p hp hpk
    have := hg.maxScore p hp e he (hpk.trans hek.symm)
    rwa [her] at this
  · intro p hp hpk hsc dp dr hdp hdr
    exact hg.maxDate p hp e he (hpk.trans hek.symm)
      (by rw [her]; exact hsc) dp dr hdp (by rw [her]; exact hdr)
  · intro a b c d
    simp [scorePost, toNumber, qadd_eq, qmul_eq, intQ_eq, Rat.mkRat_eq_div]
  · simp [scorePost, toNumber, qadd_eq, qmul_eq, intQ_eq, Rat.mkRat_eq_div]

/-- Witness for C1: the theorem applied at a concrete input. -/
theorem dedupePosts_keeps_best_witness : wPost ∈ [wPost] :=
  (dedupePosts_keeps_best envNull [wPost] (postIdentityKey envNull wPost) wPost
    (by decide) rfl).1

/-- C10 counterexample: the higher-scoring duplicate replaces its key's value
at the key's first-occurrence position, so the output `[cexA2, cexB]` is not
an order-preserving sublist of the input `[cexA, cexB, cexA2]`. -/
theorem dedupePosts_not_sublist_counterexample :
    dedupePosts envNull [cexA, cexB, cexA2] = [cexA2, cexB] ∧
    ¬ (dedupePosts envNull [cexA, cexB, cexA2]).Sublist [cexA, cexB, cexA2] := by
  refine ⟨by decide, by decide⟩

/-- C10 (amended): every output record occurs in the input (though not
necessarily in input order), output identity keys are pairwise distinct, and
`dedupePosts` is idempotent. -/
theorem dedupePosts_amended (env : JsEnv) (posts : List Post) :
    (∀ p ∈ dedupePosts env posts, p ∈ posts) ∧
    ((dedupePosts env posts).map (postIdentityKey env)).Nodup ∧
    dedupePosts env (dedupePosts env posts) = dedupePosts env posts := by
  have hg := dedupePosts_good env posts
  have hmem : ∀ p ∈ dedupePosts env posts, p ∈ posts := by
    intro p hp
    obtain ⟨e, he, hep⟩ := List.mem_map.mp hp
    exact hep ▸ hg.mem e he
  have hkeys : (dedupePosts env posts).map (postIdentityKey env) =
      (posts.foldl (dedupeStep env) []).map Prod.fst := by
    rw [dedupePosts, List.map_map]
    apply List.map_congr_left
    intro e he
    exact hg.keysEq e he
  have hnd : ((dedupePosts env posts).map (postIdentityKey env)).Nodup := by
    rw [hkeys]; exact hg.nodup
  refine ⟨hmem, hnd, ?_⟩
  have : dedupePosts env (dedupePosts env posts) =
      ((dedupePosts env posts).foldl (dedupeStep env) []).map (·.2) := rfl
  rw [this, foldl_dedupeStep_fresh env _ [] (by simp) hnd]
  simp [List.map_map, Function.comp_def]

/-- Witness for C10 (amended) at a concrete input. -/
theorem dedupePosts_amended_witness :
    dedupePosts envNull (dedupePosts envNull [cexA, cexB, cexA2]) =
      dedupePosts envNull [cexA, cexB, cexA2] :=
  (dedupePosts_amended envNull [cexA, cexB, cexA2]).2.2

/-- C6: the identity key is derived with priority activity id, then
normalised URL, then day/snippet fingerprint; and two posts whose URLs carry
the same extracted activity id (in any two recognised URL shapes) get the
same key. -/
theorem postIdentityKey_priority (env : JsEnv) (p q : Post) :
    (postActivityId p ≠ "" → postIdentityKey env p = "activity:" ++ postActivityId p) ∧
    (postActivityId p = "" → normalizeUrlForKey env (p.post_url.getD "") ≠ "" →
      postIdentityKey env p = "url:" ++ normalizeUrlForKey env (p.post_url.getD "")) ∧
    (postActivityId p = "" → normalizeUrlForKey env (p.post_url.getD "") = "" →
      postIdentityKey env p =
        "txt:" ++
          normalizedDay env (orFalsyStr p.posted_at_iso (orFalsyStr p.posted_at "")) ++
          "|" ++
          normalizedSnippet
            (orFalsyStr p.text (orFalsyStr p.content (orFalsyStr p.title "")))) ∧
    (extractActivityId (p.post_url.getD "") ≠ "" →
      extractActivityId (p.post_url.getD "") = extractActivityId (q.post_url.getD "") →
      postIdentityKey env p = postIdentityKey env q) := by
  refine ⟨?_, ?_, ?_, ?_⟩
  · intro h
    simp [postIdentityKey, h]
  · intro h hu
    simp [postIdentityKey, h, hu]
  · intro h hu
    simp [postIdentityKey, h, hu]
  · intro hne heq
    have hpa : postActivityId p = extractActivityId (p.post_url.getD "") := by
      rw [postActivityId, orStr, if_neg hne]
    have hqa : postActivityId q = extractActivityId (q.post_url.getD "") := by
      rw [postActivityId, orStr, if_neg (heq ▸ hne)]
    have hpne : postActivityId p ≠ "" := by rw [hpa]; exact hne
    have hqne : postActivityId q ≠ "" := by rw [hqa, ← heq]; exact hne
    have h1 : postIdentityKey env p = "activity:" ++ postActivityId p := by
      simp [postIdentityKey, hpne]
    have h2 : postIdentityKey env q = "activity:" ++ postActivityId q := by
      simp [postIdentityKey, hqne]
    rw [h1, h2, hpa, hqa, heq]

theorem buildRanked_fall_map (env : JsEnv) (cutoff : Int) (l : List Post) :
    ((buildRanked env cutoff l).2).map (·.post) = l := by
  induction l with
  | nil => simp [buildRanked]
  | cons p rest ih =>
    simp only [buildRanked]
    cases hd : postDateMs env p <;> simp [ih]

theorem buildRanked_win_map (env : JsEnv) (cutoff : Int) (l : List Post) :
    ((buildRanked env cutoff l).1).map (fun i => i.post) =
      l.filter (inWindow env cutoff) := by
  induction l with
  | nil => simp [buildRanked]
  | cons p rest ih =>
    simp only [buildRanked, List.filter_cons]
    cases hd : postDateMs env p with
    | none => simp [inWindow, hd, ih]
    | some ms =>
      by_cases hc : cutoff ≤ ms
      · simp [inWindow, hd, hc, ih]
      · simp [inWindow, hd, hc, ih]

theorem buildRanked_fall_facts (env : JsEnv) (cutoff : Int) (l : List Post) :
    ∀ i ∈ (buildRanked env cutoff l).2, i.post ∈ l ∧ i.score = scorePost i.post := by
  induction l with
  | nil => simp [buildRanked]
  | cons p rest ih =>
    intro i hi
    simp only [buildRanked] at hi
    cases hd : postDateMs env p <;> rw [hd] at hi <;> simp only at hi <;>
      rcases List.mem_cons.mp hi with h | h
    · rw [h]; exact ⟨by simp, rfl⟩
    · obtain ⟨h1, h2⟩ := ih i h
      exact ⟨List.mem_cons_of_mem _ h1, h2⟩
    · rw [h]; exact ⟨by simp, rfl⟩
    · obtain ⟨h1, h2⟩ := ih i h
      exact ⟨List.mem_cons_of_mem _ h1, h2⟩

theorem buildRanked_win_facts (env : JsEnv) (cutoff : Int) (l : List Post) :
    ∀ i ∈ (buildRanked env cutoff l).1,
      i.post ∈ l ∧ i.score = scorePost i.post ∧
      postDateMs env i.post = some i.postedAtMs ∧ cutoff ≤ i.postedAtMs := by
  induction l with
  | nil => simp [buildRanked]
  | cons p rest ih =>
    intro i hi
    simp only [buildRanked] at hi
    cases hd : postDateMs env p <;> rw [hd] at hi <;> simp only at hi
    · obtain ⟨h1, h2, h3, h4⟩ := ih i hi
      exact ⟨List.mem_cons_of_mem _ h1, h2, h3, h4⟩
    · rename_i ms
      by_cases hc : cutoff ≤ ms
      · rw [if_pos hc] at hi
        rcases List.mem_cons.mp hi with h | h
        · rw [h]
          exact ⟨by simp, rfl, hd, hc⟩
        · obtain ⟨h1, h2, h3, h4⟩ := ih i h
          exact ⟨List.mem_cons_of_mem _ h1, h2, h3, h4⟩
      · rw [if_neg hc] at hi
        obtain ⟨h1, h2, h3, h4⟩ := ih i hi
        exact ⟨List.mem_cons_of_mem _ h1, h2, h3, h4⟩

theorem buildRanked_win_nonempty (env : JsEnv) (cutoff : Int) (l : List Post) :
    ∀ p ∈ l, ∀ ms, postDateMs env p = some ms → cutoff ≤ ms →
      (buildRanked env cutoff l).1 ≠ [] := by
  induction l with
  | nil => simp
  | cons q rest ih =>
    intro p hp ms hms hc
    simp only [buildRanked]
    rcases List.mem_cons.mp hp with h | h
    · rw [← h, hms]
      simp only
      rw [if_pos hc]
      simp
    · have hne := ih p h ms hms hc
      cases hd : postDateMs env q
      · simpa using hne
      · rename_i m0
        simp only
        by_cases hcm : cutoff ≤ m0
        · rw [if_pos hcm]; simp
        · rw [if_neg hcm]; exact hne

/-- C8: `pickTopPosts` ranks within the recency window when at least one
deduplicated record qualifies and otherwise ranks the full deduplicated set;
in both branches the output is exactly a sorting of that branch's whole base
set — a permutation of the qualifying records, resp. of the full deduplicated
set — by score descending with ties broken by recency descending, truncated
to the top-N limit; and it is non-empty whenever the deduplicated set is
non-empty (in particular when no post falls inside the window). -/
theorem pickTopPosts_spec {α : Type} (ui : Post → ℚ → α) (env : JsEnv)
    (now days : Int) (topN : Nat) (posts : List Post) (htop : 1 ≤ topN) :
    (pickTopPostsItems env now days topN posts).Pairwise topOrder ∧
    (pickTopPostsItems env now days topN posts).length ≤ topN ∧
    (∀ i ∈ pickTopPostsItems env now days topN posts,
      i.post ∈ dedupePosts env posts ∧ i.score = scorePost i.post) ∧
    ((∃ p ∈ dedupePosts env posts, ∃ ms, postDateMs env p = some ms ∧
        now - days * 86400000 ≤ ms) →
      ∀ i ∈ pickTopPostsItems env now days topN posts,
        postDateMs env i.post = some i.postedAtMs ∧
        now - days * 86400000 ≤ i.postedAtMs) ∧
    ((∃ p ∈ dedupePosts env posts, ∃ ms, postDateMs env p = some ms ∧
        now - days * 86400000 ≤ ms) →
      ∃ full : List Ranked,
        (full.map (fun i => i.post)).Perm
          ((dedupePosts env posts).filter (inWindow env (now - days * 86400000))) ∧
        full.Pairwise topOrder ∧
        pickTopPostsItems env now days topN posts = full.take topN) ∧
    ((¬ ∃ p ∈ dedupePosts env posts, ∃ ms, postDateMs env p = some ms ∧
        now - days * 86400000 ≤ ms) →
      ∃ full : List Ranked, (full.map (fun i => i.post)).Perm (dedupePosts env posts) ∧
        full.Pairwise topOrder ∧
        pickTopPostsItems env now days topN posts = full.take topN) ∧
    (dedupePosts env posts ≠ [] → pickTopPostsItems env now days topN posts ≠ []) ∧
    pickTopPosts ui env now days topN posts =
      (pickTopPostsItems env now days topN posts).map (fun i => ui i.post i.score) := by
  have hsorted1 := List.sorted_insertionSort topOrder
    (buildRanked env (now - days * 86400000) (dedupePosts env posts)).1
  have hsorted2 := List.sorted_insertionSort topOrder
    (buildRanked env (now - days * 86400000) (dedupePosts env posts)).2
  have hperm1 := List.perm_insertionSort topOrder
    (buildRanked env (now - days * 86400000) (dedupePosts env posts)).1
  have hperm2 := List.perm_insertionSort topOrder
    (buildRanked env (now - days * 86400000) (dedupePosts env posts)).2
  by_cases hw : 0 < (buildRanked env (now - days * 86400000) (dedupePosts env posts)).1.length
  · have hitems : pickTopPostsItems env now days topN posts =
        (List.insertionSort topOrder
          (buildRanked env (now - days * 86400000) (dedupePosts env posts)).1).take topN := by
      simp only [pickTopPostsItems]
      rw [if_pos hw]
    have hwin := buildRanked_win_facts env (now - days * 86400000) (dedupePosts env posts)
    have hmem : ∀ i ∈ pickTopPostsItems env now days topN posts,
        i ∈ (buildRanked env (now - days * 86400000) (dedupePosts env posts)).1 := by
      intro i hi
      rw [hitems] at hi
      exact hperm1.mem_iff.mp (List.mem_of_mem_take hi)
    refine ⟨?_, ?_, ?_, ?_, ?_, ?_, ?_, rfl⟩
    · rw [hitems]
      exact List.Pairwise.sublist (List.take_sublist _ _) hsorted1
    · rw [hitems, List.length_take]
      exact inf_le_left
    · intro i hi
      obtain ⟨h1, h2, _, _⟩ := hwin i (hmem i hi)
      exact ⟨h1, h2⟩
    · intro _ i hi
      obtain ⟨_, _, h3, h4⟩ := hwin i (hmem i hi)
      exact ⟨h3, h4⟩
    · intro _
      refine ⟨List.insertionSort topOrder
        (buildRanked env (now - days * 86400000) (dedupePosts env posts)).1, ?_, hsorted1,
        hitems⟩
      have hmap := hperm1.map (fun i : Ranked => i.post)
      rw [buildRanked_win_map] at hmap
      exact hmap
    · intro hno
      exfalso
      obtain ⟨i, hi⟩ := List.exists_mem_of_length_pos hw
      obtain ⟨h1, _, h3, h4⟩ := hwin i hi
      exact hno ⟨i.post, h1, i.postedAtMs, h3, h4⟩
    · intro _
      rw [hitems]
      intro hnil
      rcases List.take_eq_nil_iff.mp hnil with h | h
      · omega
      · rw [← hperm1.length_eq, h] at hw
        simp at hw
  · have hwnil : (buildRanked env (now - days * 86400000) (dedupePosts env posts)).1 = [] :=
      List.length_eq_zero.mp (by omega)
    have hitems : pickTopPostsItems env now days topN posts =
        (List.insertionSort topOrder
          (buildRanked env (now - days * 86400000) (dedupePosts env posts)).2).take topN := by
      simp only [pickTopPostsItems]
      rw [if_neg hw]
    have hfall := buildRanked_fall_facts env (now - days * 86400000) (dedupePosts env posts)
    have hmem : ∀ i ∈ pickTopPostsItems env now days topN posts,
        i ∈ (buildRanked env (now - days * 86400000) (dedupePosts env posts)).2 := by
      intro i hi
      rw [hitems] at hi
      exact hperm2.mem_iff.mp (List.mem_of_mem_take hi)
    refine ⟨?_, ?_, ?_, ?_, ?_, ?_, ?_, rfl⟩
    · rw [hitems]
      exact List.Pairwise.sublist (List.take_sublist _ _) hsorted2
    · rw [hitems, List.length_take]
      exact inf_le_left
    · intro i hi
      exact hfall i (hmem i hi)
    · intro hex
      exfalso
      obtain ⟨p, hp, ms, hms, hcm⟩ := hex
      exact buildRanked_win_nonempty env (now - days * 86400000) (dedupePosts env posts)
        p hp ms hms hcm hwnil
    · intro hex
      exfalso
      obtain ⟨p, hp, ms, hms, hcm⟩ := hex
      exact buildRanked_win_nonempty env (now - days * 86400000) (dedupePosts env posts)
        p hp ms hms hcm hwnil
    · intro _
      refine ⟨List.insertionSort topOrder
        (buildRanked env (now - days * 86400000) (dedupePosts env posts)).2, ?_, hsorted2,
        hitems⟩
      have hmap := hperm2.map (fun i : Ranked => i.post)
      rw [buildRanked_fall_map] at hmap
      exact hmap
    · intro hu hnil
      rw [hitems] at hnil
      rcases List.take_eq_nil_iff.mp hnil with h | h
      · omega
      · have hfl : (buildRanked env (now - days * 86400000) (dedupePosts env posts)).2 = [] := by
          have hlen := hperm2.length_eq
          rw [h] at hlen
          exact List.length_eq_zero.mp hlen.symm
        have hmap := buildRanked_fall_map env (now - days * 86400000) (dedupePosts env posts)
        rw [hfl] at hmap
        exact hu hmap.symm

/-- Witness for C8: the fallback keeps the output non-empty at the configured
window and limit. -/
theorem pickTopPosts_spec_witness :
    pickTopPostsItems envNull 1760000000000 PROFILE_TOP_POSTS_WINDOW_DAYS
      PROFILE_TOP_POSTS_LIMIT [c8post] ≠ [] :=
  (pickTopPosts_spec (fun p s => (p, s)) envNull 1760000000000
    PROFILE_TOP_POSTS_WINDOW_DAYS PROFILE_TOP_POSTS_LIMIT [c8post]
    (by decide)).2.2.2.2.2.2.1 (by decide)

/-- Witness for C6: the same activity id in two different recognised URL
shapes yields the same identity key. -/
theorem postIdentityKey_priority_witness :
    postIdentityKey envNull c6p = postIdentityKey envNull c6q :=
  (postIdentityKey_priority envNull c6p c6q).2.2.2 (by decide) (by decide)

end Scrape

namespace Popup

open Js Scrape

theorem setAdd_mem_self (s : List String) (k : String) : k ∈ setAdd s k := by
  by_cases h : k ∈ s <;> simp [setAdd, h]

theorem setAdd_mem_of_mem (s : List String) (k k' : String) (h : k ∈ s) :
    k ∈ setAdd s k' := by
  by_cases h' : k' ∈ s <;> simp [setAdd, h', h]

theorem foldl_guardAdd_mono (f : String → String) (l : List String) :
    ∀ (s : List String) (k : String), k ∈ s →
      k ∈ l.foldl (fun acc x => if x ≠ "" then setAdd acc (f x) else acc) s := by
  induction l with
  | nil => intro s k h; simpa using h
  | cons x l ih =>
    intro s k h
    simp only [List.foldl_cons]
    by_cases hx : x ≠ ""
    · simp only [if_pos hx]
      exact ih _ k (setAdd_mem_of_mem _ _ _ h)
    · simp only [if_neg hx]
      exact ih _ k h

theorem foldl_guardAdd_mem (f : String → String) (l : List String) :
    ∀ (s : List String) (k : String), k ∈ l → k ≠ "" →
      f k ∈ l.foldl (fun acc x => if x ≠ "" then setAdd acc (f x) else acc) s := by
  induction l with
  | nil => simp
  | cons x l ih =>
    intro s k hk hne
    simp only [List.foldl_cons]
    rcases List.mem_cons.mp hk with h | h
    · rw [← h]
      simp only [if_pos hne]
      exact foldl_guardAdd_mono f l _ _ (setAdd_mem_self _ _)
    · by_cases hx : x ≠ ""
      · simp only [if_pos hx]
        exact ih _ k h hne
      · simp only [if_neg hx]
        exact ih _ k h hne

theorem isPrefixOf_self_append (l t : List Char) : l.isPrefixOf (l ++ t) = true :=
  List.isPrefixOf_iff_prefix.mpr (List.prefix_append l t)

theorem strStartsWith_append_self (a x : String) : strStartsWith (a ++ x) a = true := by
  rw [strStartsWith, String.data_append]
  exact isPrefixOf_self_append _ _

theorem txtNoDay_starts_txt (s : String) : strStartsWith ("txt:|" ++ s) "txt:" = true := by
  have h : ("txt:|" : String) = "txt:" ++ "|" := by decide
  rw [h, String.append_assoc]
  exact strStartsWith_append_self _ _

theorem txtNoDay_starts_txtNoDay (s : String) :
    strStartsWith ("txt:|" ++ s) "txt:|" = true :=
  strStartsWith_append_self _ _

theorem txtNoDay_not_activity (s : String) :
    strStartsWith ("txt:|" ++ s) "activity:" = false := rfl

theorem txtNoDay_not_url (s : String) : strStartsWith ("txt:|" ++ s) "url:" = false := rfl

theorem isEmpty_false_of_mem {l : List String} {k : String} (h : k ∈ l) :
    l.isEmpty = false := by
  cases l
  · simp at h
  · rfl

theorem txtNoDay_mem_postIdentityKeys (env : JsEnv) (p : Post)
    (hs : normalizedSnippet (orFalsyStr p.content (orFalsyStr p.text (orFalsyStr p.title ""))) ≠ "") :
    ("txt:|" ++ normalizedSnippet (orFalsyStr p.content (orFalsyStr p.text (orFalsyStr p.title "")))) ∈
      postIdentityKeys env p := by
  simp only [postIdentityKeys]
  rw [if_pos hs]
  exact setAdd_mem_self _ _

theorem legacy_mem_addIdentityKeys (env : JsEnv) (p : Post)
    (hstable : hasStableIdentityKey (postIdentityKeys env p) = false)
    (k : String) (hk : k ∈ postIdentityKeys env p) (hkt : strStartsWith k "txt:" = true)
    (hkne : k ≠ "") (s0 : List String) :
    ("legacy_" ++ k) ∈ addIdentityKeysToSet env s0 p := by
  simp only [addIdentityKeysToSet]
  rw [if_neg (by simp [isEmpty_false_of_mem hk]), if_neg (by simp [hstable])]
  exact foldl_guardAdd_mem _ _ _ k (List.mem_filter.mpr ⟨hk, hkt⟩) hkne

theorem mem_addIdentityKeys (env : JsEnv) (p : Post) (k : String)
    (hk : k ∈ postIdentityKeys env p) (hkne : k ≠ "") (s0 : List String) :
    k ∈ addIdentityKeysToSet env s0 p := by
  simp only [addIdentityKeysToSet]
  rw [if_neg (by simp [isEmpty_false_of_mem hk])]
  have hbase : k ∈ (postIdentityKeys env p).foldl
      (fun acc x => if x ≠ "" then setAdd acc x else acc) s0 :=
    foldl_guardAdd_mem id _ _ k hk hkne
  by_cases hst : hasStableIdentityKey (postIdentityKeys env p)
  · rw [if_pos hst]
    exact hbase
  · rw [if_neg hst]
    exact foldl_guardAdd_mono _ _ _ _ hbase

/-- Core of C7's duplicate check: a post with strong fingerprint `s` is
flagged as duplicate against any key set containing its day-agnostic text key
either plainly or under the `legacy_` marker. -/
theorem isDuplicate_of_noDayKey (env : JsEnv) (q : Post) (keySet : List String) (s : String)
    (hsq : normalizedSnippet (orFalsyStr q.content (orFalsyStr q.text (orFalsyStr q.title ""))) = s)
    (hlen : 80 ≤ s.length)
    (hmem : ("txt:|" ++ s) ∈ keySet ∨ ("legacy_" ++ ("txt:|" ++ s)) ∈ keySet) :
    isDuplicateAgainstKeySet env q keySet = true := by
  have hne : s ≠ "" := by
    intro h
    rw [h] at hlen
    simp at hlen
  have hkq : ("txt:|" ++ s) ∈ postIdentityKeys env q := by
    have := txtNoDay_mem_postIdentityKeys env q (by rw [hsq]; exact hne)
    rwa [hsq] at this
  simp only [isDuplicateAgainstKeySet]
  rw [if_neg (by simp [isEmpty_false_of_mem hkq]), hsq]
  rw [if_pos (decide_eq_true hlen)]
  have hmemText : ("txt:|" ++ s) ∈
      ((postIdentityKeys env q).filter (fun k =>
        !(strStartsWith k "activity:" || strStartsWith k "url:") &&
          strStartsWith k "txt:")) := by
    refine List.mem_filter.mpr ⟨hkq, ?_⟩
    rw [txtNoDay_not_activity, txtNoDay_not_url, txtNoDay_starts_txt]
    rfl
  have hmemCheck : ("txt:|" ++ s) ∈
      (((postIdentityKeys env q).filter (fun k =>
          !(strStartsWith k "activity:" || strStartsWith k "url:") &&
            strStartsWith k "txt:")).filter
        (fun k => strStartsWith k "txt:" && !strStartsWith k "txt:|") ++
       ((postIdentityKeys env q).filter (fun k =>
          !(strStartsWith k "activity:" || strStartsWith k "url:") &&
            strStartsWith k "txt:")).filter
        (fun k => strStartsWith k "txt:|")) := by
    refine List.mem_append_right _ (List.mem_filter.mpr ⟨hmemText, ?_⟩)
    exact txtNoDay_starts_txtNoDay s
  by_cases h1 : ((postIdentityKeys env q).filter (fun k =>
      strStartsWith k "activity:" || strStartsWith k "url:")).any
        (fun k => decide (k ∈ keySet))
  · rw [if_pos h1]
  · rw [if_neg h1]
    rcases hmem with hmem | hmem
    · rw [if_pos (List.any_eq_true.mpr ⟨_, hmemCheck, decide_eq_true hmem⟩)]
    · by_cases h2 : (((postIdentityKeys env q).filter (fun k =>
          !(strStartsWith k "activity:" || strStartsWith k "url:") &&
            strStartsWith k "txt:")).filter
          (fun k => strStartsWith k "txt:" && !strStartsWith k "txt:|") ++
         ((postIdentityKeys env q).filter (fun k =>
            !(strStartsWith k "activity:" || strStartsWith k "url:") &&
              strStartsWith k "txt:")).filter
          (fun k => strStartsWith k "txt:|")).any (fun k => decide (k ∈ keySet))
      · rw [if_pos h2]
      · rw [if_neg h2]
        exact List.any_eq_true.mpr ⟨_, hmemCheck, decide_eq_true hmem⟩

/-- C7: a record with no stable identity key is registered with its text
fingerprint keys both plainly and under the `legacy_` marker, and the
duplicate check consults the `legacy_`-marked keys, so a later record with
the same strong text fingerprint is recognised as a duplicate — both against
the registered set and against a set retaining only the `legacy_` key. -/
theorem legacyKeys_recognize_duplicate (envP envQ : JsEnv) (p q : Post) (s : String)
    (hstable : hasStableIdentityKey (postIdentityKeys envP p) = false)
    (hsp : normalizedSnippet (orFalsyStr p.content (orFalsyStr p.text (orFalsyStr p.title ""))) = s)
    (hsq : normalizedSnippet (orFalsyStr q.content (orFalsyStr q.text (orFalsyStr q.title ""))) = s)
    (hlen : 80 ≤ s.length) :
    ("legacy_" ++ ("txt:|" ++ s)) ∈ addIdentityKeysToSet envP [] p ∧
    isDuplicateAgainstKeySet envQ q (addIdentityKeysToSet envP [] p) = true ∧
    isDuplicateAgainstKeySet envQ q ["legacy_" ++ ("txt:|" ++ s)] = true := by
  have hne : s ≠ "" := by
    intro h
    rw [h] at hlen
    simp at hlen
  have hkp : ("txt:|" ++ s) ∈ postIdentityKeys envP p := by
    have := txtNoDay_mem_postIdentityKeys envP p (by rw [hsp]; exact hne)
    rwa [hsp] at this
  have hkne : ("txt:|" ++ s) ≠ "" := append_lit_ne_empty _ _ (by decide)
  have hleg : ("legacy_" ++ ("txt:|" ++ s)) ∈ addIdentityKeysToSet envP [] p :=
    legacy_mem_addIdentityKeys envP p hstable _ hkp (txtNoDay_starts_txt s) hkne []
  refine ⟨hleg, ?_, ?_⟩
  · exact isDuplicate_of_noDayKey envQ q _ s hsq hlen
      (Or.inl (mem_addIdentityKeys envP p _ hkp hkne []))
  · exact isDuplicate_of_noDayKey envQ q _ s hsq hlen (Or.inr (by simp))

/-- Witness for C7 at concrete inputs. -/
theorem legacyKeys_recognize_duplicate_witness :
    isDuplicateAgainstKeySet envNull c7q (addIdentityKeysToSet envNull [] c7p) = true :=
  (legacyKeys_recognize_duplicate envNull envNull c7p c7q
    "a long post body that serves as a strong text fingerprint for deduplication checks"
    (by decide) (by decide) (by decide) (by decide)).2.1

end Popup

namespace Assist

open Js

/-- C9: a generation failure carrying an unauthenticated signal (the message
contains `401` or `unauthorized` and no network-failure marker, which is
checked first) surfaces the login-specific status message, which is not the
generic fallback; and the concrete message the backend layer produces for a
payload-less HTTP 401 takes exactly this path. -/
theorem unauthenticated_maps_to_login (raw : String)
    (h401 : strIncludes (jsToLower (cleanText raw)) "401" = true ∨
      strIncludes (jsToLower (cleanText raw)) "unauthorized" = true)
    (hnet : strIncludes (jsToLower (cleanText raw)) "can't reach backend" = false ∧
      strIncludes (jsToLower (cleanText raw)) "failed to fetch" = false ∧
      strIncludes (jsToLower (cleanText raw)) "network error" = false) :
    (setCommentAssistError raw).statusText = MSG_LOGIN ∧
    MSG_LOGIN ≠ MSG_GENERIC ∧
    (setCommentAssistError (toBackendErrorMessage 401 none "Request failed")).statusText =
      MSG_LOGIN := by
  refine ⟨?_, by decide, by decide⟩
  simp only [setCommentAssistError]
  rw [hnet.1, hnet.2.1, hnet.2.2]
  rcases h401 with h | h <;> rw [h] <;> simp

/-- Witness for C9 at the concrete 401 message. -/
theorem unauthenticated_maps_to_login_witness :
    (setCommentAssistError "Request failed (HTTP 401)").statusText = MSG_LOGIN :=
  (unauthenticated_maps_to_login "Request failed (HTTP 401)" (by decide) (by decide)).1

end Assist

namespace Orch

/-- C2: from a state with no fresh cache entry and no job in flight, the
first request starts a job and opens one ephemeral tab; a second request for
the same key arriving while that job is still in flight joins the same job
and opens no tab — two concurrent requests open exactly one tab in total.
(The last conjunct is the general in-flight rule: any request that finds a
job in flight and no fresh cache joins that job and leaves the state
untouched.) -/
theorem singleFlight_one_tab (s : OrchState)
    (hc : s.cacheFresh = false) (hi : s.inflight = none) :
    (enterRequest s).2 = EnterOutcome.started s.nextJobId ∧
    ((enterRequest s).1).tabsOpened = s.tabsOpened + 1 ∧
    (enterRequest (enterRequest s).1).2 = EnterOutcome.joined s.nextJobId ∧
    ((enterRequest (enterRequest s).1).1).tabsOpened = s.tabsOpened + 1 ∧
    (∀ (t : OrchState) (j : Nat), t.cacheFresh = false → t.inflight = some j →
      enterRequest t = (t, EnterOutcome.joined j)) := by
  refine ⟨?_, ?_, ?_, ?_, ?_⟩
  · simp [enterRequest, hc, hi]
  · simp [enterRequest, hc, hi]
  · simp [enterRequest, hc, hi]
  · simp [enterRequest, hc, hi]
  · intro t j htc hti
    simp [enterRequest, htc, hti]

/-- Witness for C2 at the concrete clean state. -/
theorem singleFlight_one_tab_witness :
    (enterRequest (enterRequest s0).1).2 = EnterOutcome.joined 0 ∧
    ((enterRequest (enterRequest s0).1).1).tabsOpened = 1 :=
  ⟨(singleFlight_one_tab s0 rfl rfl).2.2.1, (singleFlight_one_tab s0 rfl rfl).2.2.2.1⟩

theorem requestPosts_effects_reload (env : ScrapeEnv) :
    ∀ n, ∀ e ∈ (requestPostsFromTab env n).2, e = Effect.reloadTab env.tabId := by
  intro n
  induction n with
  | zero => simp [requestPostsFromTab]
  | succ n ih =>
    intro e he
    simp only [requestPostsFromTab] at he
    cases hat : env.attempts (3 - (n + 1)) with
    | ok good => rw [hat] at he; simp at he
    | otherError => rw [hat] at he; simp at he
    | recvEndMissing rok =>
      rw [hat] at he
      simp only at he
      by_cases h0 : n = 0
      · rw [if_pos h0] at he; simp at he
      · rw [if_neg h0] at he
        by_cases hrok : rok
        · simp only [if_pos hrok] at he
          rcases List.mem_cons.mp he with h | h
          · exact h
          · exact ih e h
        · simp only [if_neg hrok] at he
          rcases List.mem_singleton.mp he with h
          rw [h]

theorem scrapeBody_effects_reload (env : ScrapeEnv) :
    ∀ e ∈ (scrapeBody env).2, e = Effect.reloadTab env.tabId := by
  intro e he
  simp only [scrapeBody] at he
  by_cases h2 : env.cancelledAt2
  · rw [if_pos h2] at he; simp at he
  · rw [if_neg h2] at he
    by_cases hw : ¬ env.waitOk
    · rw [if_pos hw] at he; simp at he
    · rw [if_neg hw] at he
      by_cases h3 : env.cancelledAt3
      · rw [if_pos h3] at he; simp at he
      · rw [if_neg h3] at he
        by_cases h4 : env.cancelledAt4
        · rw [if_pos h4] at he; simp at he
        · rw [if_neg h4] at he
          cases hreq : (requestPostsFromTab env 3).1 with
          | none =>
            rw [hreq] at he
            exact requestPosts_effects_reload env 3 e he
          | some good =>
            rw [hreq] at he
            simp only at he
            by_cases hg : ¬ good
            · rw [if_pos hg] at he
              exact requestPosts_effects_reload env 3 e he
            · rw [if_neg hg] at he
              by_cases h5 : env.cancelledAt5
              · rw [if_pos h5] at he
                exact requestPosts_effects_reload env 3 e he
              · rw [if_neg h5] at he
                exact requestPosts_effects_reload env 3 e he

/-- C3: on every exit path — success, extraction failure, load timeout or
early tab closure, and cooperative cancellation at any check — a run that
opens its ephemeral tab produces a trace bracketed by that tab's open and a
final close; in particular a cancelled run closes its tab. -/
theorem scrape_always_closes_tab (env : ScrapeEnv) (tid : Nat)
    (hopen : Effect.openTab tid ∈ (scrapeProfilePosts env).2) :
    (scrapeProfilePosts env).2 =
      Effect.openTab tid :: (scrapeBody env).2 ++ [Effect.closeTab tid] ∧
    Effect.closeTab tid ∈ (scrapeProfilePosts env).2 := by
  by_cases h1 : env.cancelledAt1
  · exfalso
    simp [scrapeProfilePosts, h1] at hopen
  · by_cases h2 : env.createOk
    · have htr : (scrapeProfilePosts env).2 =
          Effect.openTab env.tabId :: (scrapeBody env).2 ++ [Effect.closeTab env.tabId] := by
        simp [scrapeProfilePosts, h1, h2]
      rw [htr] at hopen
      have htid : tid = env.tabId := by
        rcases List.mem_cons.mp hopen with h | h
        · exact Effect.openTab.inj h
        · rcases List.mem_append.mp h with h | h
          · have := scrapeBody_effects_reload env _ h
            simp at this
          · have := List.mem_singleton.mp h
            simp at this
      rw [htr, htid]
      exact ⟨rfl, List.mem_cons_of_mem _ (List.mem_append_right _ (by simp))⟩
    · exfalso
      simp [scrapeProfilePosts, h1, h2] at hopen

/-- Witness for C3: the cancelled run's trace opens tab 7 and closes it. -/
theorem scrape_always_closes_tab_witness :
    (scrapeProfilePosts envC3).2 =
      Effect.openTab 7 :: (scrapeBody envC3).2 ++ [Effect.closeTab 7] ∧
    Effect.closeTab 7 ∈ (scrapeProfilePosts envC3).2 :=
  scrape_always_closes_tab envC3 7 (by decide)

end Orch

end MyVoice
